import Mathlib

/-!
Base scalping bot: the strategy loop of `index.js`, `scalpAERO.js` and `scalpCBBTC.js`

The three scripts run the same polling loop `scalp()` over one pool each.  This file embeds
one iteration of that loop as a pure function on an explicit state, and the loop itself as
the iteration of that function over the sequence of results of `getPrice()`.

Conventions of the embedding:

* a JavaScript `Number` is an exact rational (`ℚ`); a non-finite `Number` (the result of a
  division by zero) is `none` and makes the following `parseUnits` throw;
* a `BigInt` is an integer (`ℤ`); `/` on `BigInt` truncates toward zero (`Int.tdiv`);
* the decimal strings that travel between `toFixed`, `parseUnits` and `formatUnits` are
  kept as the digits they spell (`NumStr`);
* a status string is kept as its template together with the formatted fields interpolated
  into it (`Status`), so two statuses are equal exactly when the strings are;
* the body of `try` returns the state and the effects performed up to the point where it
  ended, normally or by a throw (`Effect.error` is the `console.error` of `catch`);
* `logTokenOrdering()`, which runs once before the loop and only prints, is left out.
-/

namespace ScalpingBot

/-! ## Numbers and decimal strings -/

/-- Text produced by `Number.prototype.toFixed(d)`: positional digits with a sign, or, from
`1e21` upward, the exponent form of `Number.prototype.toString`, which is determined by the
number itself. -/
inductive NumStr where
  | fixed (neg : Bool) (units : ℕ)
  | exponent (x : ℚ)
  deriving DecidableEq

/-- Rounding of `toFixed`: the integer `n` with `n / 10^d` nearest to `a`, the larger one on
a tie. -/
def roundHalfUp (a : ℚ) (d : ℕ) : ℕ :=
  ⌊a * 10 ^ d + 1 / 2⌋.toNat

/-- The method `x.toFixed(d)`: the sign is taken off first, `|x| >= 1e21` prints in exponent
form, anything smaller prints `d` fraction digits rounded to nearest. -/
def toFixed (x : ℚ) (d : ℕ) : NumStr :=
  if (10 : ℚ) ^ 21 ≤ |x| then NumStr.exponent x
  else NumStr.fixed (decide (x < 0)) (roundHalfUp |x| d)

/-- The call `parseUnits(str, d)` on a string with `d` fraction digits: the digits read as an
integer of base units; the exponent form is not a decimal string and throws (`none`). -/
def parseUnits : NumStr → Option ℤ
  | NumStr.fixed neg units => some (if neg then -(units : ℤ) else (units : ℤ))
  | NumStr.exponent _ => none

/-- The value `Number(formatUnits(amount, decimals))`. -/
def formatUnits (amount : ℤ) (decimals : ℕ) : ℚ :=
  (amount : ℚ) / 10 ^ decimals

/-- The coercion of a `toFixed(d)` string back to a `Number`, as done by the `-` operator. -/
def NumStr.toNumber (d : ℕ) : NumStr → ℚ
  | NumStr.fixed neg units => if neg then -((units : ℚ) / 10 ^ d) else (units : ℚ) / 10 ^ d
  | NumStr.exponent x => x

/-- The quotient `a / b` of two `Number`s; `none` is the non-finite result of `b = 0`. -/
def numDiv (a b : ℚ) : Option ℚ :=
  if b = 0 then none else some (a / b)

/-- Truthiness of a `Number | null`: `null` and `0` are falsy. -/
def truthy : Option ℚ → Bool
  | none => false
  | some v => decide (v ≠ 0)

/-! ## Configuration: what differs between the three scripts -/

/-- Constants and variant switches of one script. -/
structure Config where
  /-- The constant `SMA_WINDOW`. -/
  SMA_WINDOW : ℕ
  /-- The constant `PROFIT_TARGET` (`INITIAL_PROFIT_TARGET` in the full-balance scripts). -/
  PROFIT_TARGET : ℚ
  /-- The constant `STOP_LOSS`. -/
  STOP_LOSS : ℚ
  /-- Whether the sell condition contains `prevAboveSma && !priceAboveSma`. -/
  exitOnCrossover : Bool
  /-- Whether the buy trades `calculateTradeAmount()` and `swap` keeps
  `simulatedUsdcBalance`; otherwise the buy trades the constant `AMOUNT_IN`. -/
  fullBalance : Bool
  /-- Whether the price is token per USDC (buy multiplies, sell divides) rather than USDC
  per token (buy divides, sell multiplies). -/
  tokenPerUsdc : Bool
  /-- Decimals of the bought token. -/
  tokenDecimals : ℕ
  /-- Fraction digits of prices in status lines. -/
  priceDigits : ℕ

/-- Script `index.js`. -/
def index : Config where
  SMA_WINDOW := 60
  PROFIT_TARGET := 2 / 100
  STOP_LOSS := -3 / 100
  exitOnCrossover := true
  fullBalance := false
  tokenPerUsdc := false
  tokenDecimals := 8
  priceDigits := 2

/-- Script `scalpAERO.js`. -/
def scalpAERO : Config where
  SMA_WINDOW := 36
  PROFIT_TARGET := 1 / 100
  STOP_LOSS := -2 / 100
  exitOnCrossover := false
  fullBalance := true
  tokenPerUsdc := true
  tokenDecimals := 18
  priceDigits := 6

/-- Script `scalpCBBTC.js`. -/
def scalpCBBTC : Config where
  SMA_WINDOW := 36
  PROFIT_TARGET := 1 / 100
  STOP_LOSS := -2 / 100
  exitOnCrossover := false
  fullBalance := true
  tokenPerUsdc := false
  tokenDecimals := 8
  priceDigits := 2

/-- The constant `SLIPPAGE_TOLERANCE = 0.995`, the same in the three scripts. -/
def SLIPPAGE_TOLERANCE : ℚ := 995 / 1000

/-- The constant `AMOUNT_IN = parseUnits('25', 6)` of `index.js`. -/
def AMOUNT_IN : ℤ := 25000000

/-! ## Status lines and effects -/

/-- Suffix of the `Sold at` status. -/
inductive SellTag where
  | stopLoss
  | smaCrossover
  | none
  deriving DecidableEq

/-- First argument of `logStatus`: the template and its interpolated fields. -/
inductive Status where
  | waitingForData
  | waitingForBuySignal
  | bought (price : NumStr) (balance : ℤ)
  | sold (price : NumStr) (profitPercent : NumStr) (tag : SellTag)
  | profit (profitPercent : NumStr)
  deriving DecidableEq

/-- Observable effects of the loop, in the order performed. -/
inductive Effect where
  /-- The call `await getPrice()`. -/
  | getPrice
  /-- The `console.log` of `logStatus`, with the `additionalInfo` fields (price, SMA). -/
  | log (status : Status) (additionalInfo : Option (NumStr × NumStr))
  /-- The `console.log` of `calculateTradeAmount`. -/
  | balanceLine (balance : NumStr)
  /-- The line `Insufficient USDC balance to trade`. -/
  | insufficient
  /-- The call `swap(amountIn, minAmountOut, isBuy)`. -/
  | swap (amountIn : ℤ) (minAmountOut : ℤ) (isBuy : Bool)
  /-- The five-second `setTimeout`. -/
  | sleep
  /-- The `console.error` of the `catch` block. -/
  | error
  deriving DecidableEq

/-- Whether an effect is a call of `swap`. -/
def Effect.isSwap : Effect → Bool
  | Effect.swap _ _ _ => true
  | _ => false

/-- The calls of `swap` among some effects, in order. -/
def swaps (effects : List Effect) : List Effect :=
  effects.filter Effect.isSwap

/-- Module-level and `scalp`-local variables of a script. -/
structure State where
  /-- Global `priceHistory`. -/
  priceHistory : List ℚ
  /-- Global `currentStatus`. -/
  currentStatus : Option Status
  /-- Global `simulatedUsdcBalance` (absent from, and unused by, `index.js`). -/
  simulatedUsdcBalance : ℚ
  /-- Local `lastBuyPrice`. -/
  lastBuyPrice : Option ℚ
  /-- Local `cbbtcBalance` or `aeroBalance`. -/
  tokenBalance : ℤ
  /-- Local `lastProfitLogged`. -/
  lastProfitLogged : Option NumStr

/-- Values of the variables when the loop is entered. -/
def State.init : State where
  priceHistory := []
  currentStatus := none
  simulatedUsdcBalance := 25
  lastBuyPrice := none
  tokenBalance := 0
  lastProfitLogged := none

/-- The position as the loop reads it: `if (!lastBuyPrice)` is the flat branch. -/
inductive Position where
  | FLAT
  | LONG
  deriving DecidableEq

/-- Branch taken by `if (!lastBuyPrice)`. -/
def State.position (s : State) : Position :=
  if truthy s.lastBuyPrice then Position.LONG else Position.FLAT

/-! ## The functions of the scripts -/

/-- The statements `priceHistory.push(price); if (priceHistory.length > SMA_WINDOW + 1)
priceHistory.shift();`. -/
def pushPrice (w : ℕ) (priceHistory : List ℚ) (price : ℚ) : List ℚ :=
  let pushed := priceHistory ++ [price]
  if pushed.length > w + 1 then pushed.tail else pushed

/-- The call `prices.slice(-w)`: the last `w` entries, all of them when there are fewer; since
`-0` is `0`, `slice(-0)` is the whole array. -/
def slice (w : ℕ) (prices : List ℚ) : List ℚ :=
  if w = 0 then prices else prices.drop (prices.length - w)

/-- Function `calculateSMA` with the window as an argument; `none` is `null`.  For `w = 0`
the script divides by zero, which this quotient does not represent. -/
def calculateSMA (w : ℕ) (prices : List ℚ) : Option ℚ :=
  if prices.length < w then none
  else some ((slice w prices).foldl (fun a b => a + b) 0 / (w : ℚ))

/-- The read `priceHistory[priceHistory.length - 2]`; `none` is `undefined`. -/
def prevPrice (priceHistory : List ℚ) : Option ℚ :=
  if priceHistory.length < 2 then none else priceHistory.get? (priceHistory.length - 2)

/-- The comparison `x > sma`, false when `x` is `undefined`. -/
def aboveSma (x : Option ℚ) (sma : ℚ) : Bool :=
  match x with
  | none => false
  | some p => decide (p > sma)

/-- Function `logStatus`: prints and remembers the status only when it differs from
`currentStatus`. -/
def logStatus (newStatus : Status) (additionalInfo : Option (NumStr × NumStr))
    (currentStatus : Option Status) : Option Status × List Effect :=
  if some newStatus ≠ currentStatus then (some newStatus, [Effect.log newStatus additionalInfo])
  else (currentStatus, [])

/-- The expression `x * BigInt(Math.floor(SLIPPAGE_TOLERANCE * 100)) / 100n`. -/
def minAmountOut (expected : ℤ) : ℤ :=
  Int.tdiv (expected * ⌊SLIPPAGE_TOLERANCE * 100⌋) 100

/-- Function `calculateTradeAmount`, its `console.log` apart:
`parseUnits(balance.toFixed(6), 6)`. -/
def calculateTradeAmount (balance : ℚ) : Option ℤ :=
  parseUnits (toFixed balance 6)

/-- The buy's `expectedOutRaw`: `25 / price` in `index.js`,
`Number(formatUnits(amountIn, 6)) * price` in `scalpAERO.js` and
`Number(formatUnits(amountIn, 6)) / price` in `scalpCBBTC.js`. -/
def expectedOutRaw (cfg : Config) (amountIn : ℤ) (price : ℚ) : Option ℚ :=
  let notional : ℚ := if cfg.fullBalance then formatUnits amountIn 6 else 25
  if cfg.tokenPerUsdc then some (notional * price) else numDiv notional price

/-- The buy's `expectedOut = parseUnits(expectedOutRaw.toFixed(d), d)`; `none` when
`parseUnits` throws. -/
def expectedOut (cfg : Config) (amountIn : ℤ) (price : ℚ) : Option ℤ :=
  (expectedOutRaw cfg amountIn price).bind fun raw => parseUnits (toFixed raw cfg.tokenDecimals)

/-- The sell's `expectedUsdcRaw`: `Number(formatUnits(amountOut, d)) * price`, or `/ price`
in `scalpAERO.js`. -/
def expectedUsdcRaw (cfg : Config) (amountOut : ℤ) (price : ℚ) : Option ℚ :=
  let quantity : ℚ := formatUnits amountOut cfg.tokenDecimals
  if cfg.tokenPerUsdc then numDiv quantity price else some (quantity * price)

/-- The sell's `expectedUsdc = parseUnits(expectedUsdcRaw.toFixed(6), 6)`. -/
def expectedUsdc (cfg : Config) (amountOut : ℤ) (price : ℚ) : Option ℤ :=
  (expectedUsdcRaw cfg amountOut price).bind fun raw => parseUnits (toFixed raw 6)

/-- The buy test `!prevAboveSma && priceAboveSma`. -/
def buySignal (prevAboveSma priceAboveSma : Bool) : Bool :=
  !prevAboveSma && priceAboveSma

/-- The crossover test `prevAboveSma && !priceAboveSma` of the sell condition. -/
def crossDownSignal (prevAboveSma priceAboveSma : Bool) : Bool :=
  prevAboveSma && !priceAboveSma

/-- The assignment `profit = (price - lastBuyPrice) / lastBuyPrice`. -/
def profitOf (price lastBuyPrice : ℚ) : ℚ :=
  (price - lastBuyPrice) / lastBuyPrice

/-- The sell condition:
`prevAboveSma && !priceAboveSma || profit >= PROFIT_TARGET || profit <= STOP_LOSS` in
`index.js`, `profit >= INITIAL_PROFIT_TARGET || profit <= STOP_LOSS` in the other two. -/
def exitCondition (cfg : Config) (prevAboveSma priceAboveSma : Bool) (profit : ℚ) : Bool :=
  if cfg.exitOnCrossover then
    crossDownSignal prevAboveSma priceAboveSma || decide (profit ≥ cfg.PROFIT_TARGET)
      || decide (profit ≤ cfg.STOP_LOSS)
  else
    decide (profit ≥ cfg.PROFIT_TARGET) || decide (profit ≤ cfg.STOP_LOSS)

/-- Suffix of the `Sold at` line:
`profit < 0 ? '(Stop-Loss)' : (prevAboveSma && !priceAboveSma ? '(SMA Crossover)' : '')` in
`index.js`, `profit <= STOP_LOSS ? '(Stop-Loss)' : ''` in the other two. -/
def sellTag (cfg : Config) (prevAboveSma priceAboveSma : Bool) (profit : ℚ) : SellTag :=
  if cfg.exitOnCrossover then
    if profit < 0 then SellTag.stopLoss
    else if crossDownSignal prevAboveSma priceAboveSma then SellTag.smaCrossover
    else SellTag.none
  else
    if profit ≤ cfg.STOP_LOSS then SellTag.stopLoss else SellTag.none

/-! ## One iteration of `while (true)` -/

/-- The branch `if (!sma)`: status, sleep, `continue`. -/
def waitForData (s : State) : State × List Effect :=
  let logged := logStatus Status.waitingForData none s.currentStatus
  ({ s with currentStatus := logged.1 }, logged.2 ++ [Effect.sleep])

/-- The buy from the sizing on, `amountIn` being known; `pre` are the effects already
performed in this branch. -/
def buyWith (cfg : Config) (s : State) (price : ℚ) (amountIn : ℤ) (pre : List Effect) :
    State × List Effect :=
  match expectedOut cfg amountIn price with
  | none => (s, pre ++ [Effect.error])
  | some expected =>
    let minOut := minAmountOut expected
    let logged := logStatus (Status.bought (toFixed price cfg.priceDigits) minOut) none
      s.currentStatus
    ({ s with
        simulatedUsdcBalance :=
          if cfg.fullBalance then s.simulatedUsdcBalance - formatUnits amountIn 6
          else s.simulatedUsdcBalance
        lastBuyPrice := some price
        tokenBalance := minOut
        currentStatus := logged.1 },
      pre ++ [Effect.swap amountIn minOut true] ++ logged.2 ++ [Effect.sleep])

/-- The branch `if (!prevAboveSma && priceAboveSma)` of the flat position. -/
def buy (cfg : Config) (s : State) (price : ℚ) : State × List Effect :=
  if cfg.fullBalance then
    let line := Effect.balanceLine (toFixed s.simulatedUsdcBalance 2)
    match calculateTradeAmount s.simulatedUsdcBalance with
    | none => (s, [line, Effect.error])
    | some amountIn =>
      if formatUnits amountIn 6 ≤ 0 then (s, [line, Effect.insufficient, Effect.sleep])
      else buyWith cfg s price amountIn [line]
  else buyWith cfg s price AMOUNT_IN []

/-- The branch of the long position whose sell condition holds. -/
def sell (cfg : Config) (s : State) (price profit : ℚ) (prevAboveSma priceAboveSma : Bool) :
    State × List Effect :=
  match expectedUsdc cfg s.tokenBalance price with
  | none => (s, [Effect.error])
  | some expected =>
    let minOut := minAmountOut expected
    let logged := logStatus
      (Status.sold (toFixed price cfg.priceDigits) (toFixed (profit * 100) 2)
        (sellTag cfg prevAboveSma priceAboveSma profit)) none s.currentStatus
    ({ s with
        simulatedUsdcBalance :=
          if cfg.fullBalance then s.simulatedUsdcBalance + formatUnits minOut 6
          else s.simulatedUsdcBalance
        lastBuyPrice := none
        tokenBalance := 0
        lastProfitLogged := none
        currentStatus := logged.1 },
      [Effect.swap s.tokenBalance minOut false] ++ logged.2 ++ [Effect.sleep])

/-- The test `lastProfitLogged === null || Math.abs(profitPercent - lastProfitLogged) >= 0.1`. -/
def profitMoved (profitPercent : NumStr) (lastProfitLogged : Option NumStr) : Bool :=
  match lastProfitLogged with
  | none => true
  | some last => decide (|profitPercent.toNumber 2 - last.toNumber 2| ≥ 1 / 10)

/-- The branch of the long position whose sell condition fails. -/
def hold (cfg : Config) (s : State) (price sma profit : ℚ) : State × List Effect :=
  let profitPercent := toFixed (profit * 100) 2
  if profitMoved profitPercent s.lastProfitLogged then
    let logged := logStatus (Status.profit profitPercent)
      (some (toFixed price cfg.priceDigits, toFixed sma cfg.priceDigits)) s.currentStatus
    ({ s with currentStatus := logged.1, lastProfitLogged := some profitPercent },
      logged.2 ++ [Effect.sleep])
  else (s, [Effect.sleep])

/-- The branch `if (!lastBuyPrice)`: buy on the signal, otherwise report and sleep. -/
def flat (cfg : Config) (s : State) (price : ℚ) (prevAboveSma priceAboveSma : Bool) :
    State × List Effect :=
  if buySignal prevAboveSma priceAboveSma then buy cfg s price
  else
    let logged := logStatus Status.waitingForBuySignal none s.currentStatus
    ({ s with currentStatus := logged.1 }, logged.2 ++ [Effect.sleep])

/-- The `else` of `if (!lastBuyPrice)`: sell when the sell condition holds, otherwise report
the unrealised profit. -/
def long (cfg : Config) (s : State) (price sma lastBuyPrice : ℚ)
    (prevAboveSma priceAboveSma : Bool) : State × List Effect :=
  let profit := profitOf price lastBuyPrice
  if exitCondition cfg prevAboveSma priceAboveSma profit then
    sell cfg s price profit prevAboveSma priceAboveSma
  else hold cfg s price sma profit

/-- The statements of `try` after the history update, on the state whose history already
holds `price`. -/
def tryBody (cfg : Config) (s : State) (price : ℚ) : State × List Effect :=
  match calculateSMA cfg.SMA_WINDOW s.priceHistory with
  | none => waitForData s
  | some sma =>
    if sma = 0 then waitForData s
    else
      let prevAboveSma := aboveSma (prevPrice s.priceHistory) sma
      let priceAboveSma := aboveSma (some price) sma
      match s.lastBuyPrice with
      | none => flat cfg s price prevAboveSma priceAboveSma
      | some lastBuyPrice =>
        if lastBuyPrice = 0 then flat cfg s price prevAboveSma priceAboveSma
        else long cfg s price sma lastBuyPrice prevAboveSma priceAboveSma

/-- One iteration of the loop, given what `getPrice()` did: `none` is a throw, caught by
`catch`, which prints and does not sleep. -/
def scalpCycle (cfg : Config) (s : State) (fetched : Option ℚ) : State × List Effect :=
  match fetched with
  | none => (s, [Effect.getPrice, Effect.error])
  | some price =>
    let r := tryBody cfg
      { s with priceHistory := pushPrice cfg.SMA_WINDOW s.priceHistory price } price
    (r.1, Effect.getPrice :: r.2)

/-- The loop `scalp` run over the results of its first `getPrice()` calls. -/
def scalp (cfg : Config) (s : State) : List (Option ℚ) → State × List Effect
  | [] => (s, [])
  | fetched :: rest =>
    let r := scalpCycle cfg s fetched
    let r' := scalp cfg r.1 rest
    (r'.1, r.2 ++ r'.2)

/-! ## Sequences of calls and properties of traces -/

/-- The history once the statements before the decision have run: `price` is pushed when
`getPrice()` returned it, nothing is when it threw. -/
def historyAfter (w : ℕ) (priceHistory : List ℚ) : Option ℚ → List ℚ
  | none => priceHistory
  | some price => pushPrice w priceHistory price

/-- Successive calls of `logStatus`, each with its status and its `additionalInfo`, on the
global `currentStatus`. -/
def logStatusCalls (currentStatus : Option Status) :
    List (Status × Option (NumStr × NumStr)) → Option Status × List Effect
  | [] => (currentStatus, [])
  | call :: rest =>
    let r := logStatus call.1 call.2 currentStatus
    let r' := logStatusCalls r.1 rest
    (r'.1, r.2 ++ r'.2)

/-- Whether each `getPrice` of a trace comes after a `sleep` performed since the `getPrice`
before it; `slept` tells whether the trace starts after such a `sleep`. -/
def fetchesSeparatedFrom (slept : Bool) : List Effect → Bool
  | [] => true
  | Effect.getPrice :: rest => slept && fetchesSeparatedFrom false rest
  | Effect.sleep :: rest => fetchesSeparatedFrom true rest
  | Effect.log _ _ :: rest => fetchesSeparatedFrom slept rest
  | Effect.balanceLine _ :: rest => fetchesSeparatedFrom slept rest
  | Effect.insufficient :: rest => fetchesSeparatedFrom slept rest
  | Effect.swap _ _ _ :: rest => fetchesSeparatedFrom slept rest
  | Effect.error :: rest => fetchesSeparatedFrom slept rest

/-- Whether no two consecutive `getPrice` of a trace lack a `sleep` between them. -/
def fetchesSeparated (trace : List Effect) : Bool :=
  fetchesSeparatedFrom true trace

/-- Whether the calls of `swap` in a trace alternate between buy and sell, the first one
being a buy exactly when `expectBuy`. -/
def alternatesFrom (expectBuy : Bool) : List Effect → Bool
  | [] => true
  | Effect.swap _ _ isBuy :: rest => (isBuy == expectBuy) && alternatesFrom (!expectBuy) rest
  | Effect.getPrice :: rest => alternatesFrom expectBuy rest
  | Effect.sleep :: rest => alternatesFrom expectBuy rest
  | Effect.log _ _ :: rest => alternatesFrom expectBuy rest
  | Effect.balanceLine _ :: rest => alternatesFrom expectBuy rest
  | Effect.insufficient :: rest => alternatesFrom expectBuy rest
  | Effect.error :: rest => alternatesFrom expectBuy rest

/-- The variables the trading decisions read and write: `priceHistory`,
`simulatedUsdcBalance`, `lastBuyPrice` and the token balance; the two variables left out,
`currentStatus` and `lastProfitLogged`, are the ones kept for the status lines. -/
def State.trading (s : State) : List ℚ × ℚ × Option ℚ × ℤ :=
  (s.priceHistory, s.simulatedUsdcBalance, s.lastBuyPrice, s.tokenBalance)


/-! ## Arithmetic of the sizing -/

theorem floor_slippage : ⌊SLIPPAGE_TOLERANCE * 100⌋ = 99 := by
  rw [Int.floor_eq_iff]
  norm_num [SLIPPAGE_TOLERANCE]

theorem minAmountOut_eq (expected : ℤ) : minAmountOut expected = Int.tdiv (expected * 99) 100 := by
  simp [minAmountOut, floor_slippage]

theorem minAmountOut_of_nonneg (expected : ℤ) (h : 0 ≤ expected) :
    minAmountOut expected = expected * 99 / 100 := by
  rw [minAmountOut_eq, Int.tdiv_eq_ediv (by positivity) (by norm_num)]

theorem roundHalfUp_eq (a : ℚ) (d n : ℕ) (h1 : (n : ℚ) ≤ a * 10 ^ d + 1 / 2)
    (h2 : a * 10 ^ d + 1 / 2 < (n : ℚ) + 1) : roundHalfUp a d = n := by
  unfold roundHalfUp
  have : ⌊a * 10 ^ d + 1 / 2⌋ = (n : ℤ) := by
    rw [Int.floor_eq_iff]
    exact ⟨by exact_mod_cast h1, by exact_mod_cast h2⟩
  rw [this, Int.toNat_natCast]

theorem toFixed_of_nonneg (x : ℚ) (d : ℕ) (h0 : 0 ≤ x) (h : x < 10 ^ 21) :
    toFixed x d = NumStr.fixed false (roundHalfUp x d) := by
  unfold toFixed
  rw [abs_of_nonneg h0, if_neg (not_le.mpr h)]
  simp [not_lt.mpr h0]

theorem toFixed_of_neg (x : ℚ) (d : ℕ) (h0 : x < 0) (h : -x < 10 ^ 21) :
    toFixed x d = NumStr.fixed true (roundHalfUp (-x) d) := by
  unfold toFixed
  rw [abs_of_neg h0, if_neg (not_le.mpr h)]
  simp [h0]

/-! ## Crossover signals -/

/-- C2: for every previous price, current price and moving average, the buy test
`!prevAboveSma && priceAboveSma` holds exactly when `previousPrice <= movingAverage` and
`currentPrice > movingAverage`, the crossover-exit test `prevAboveSma && !priceAboveSma`
holds exactly when `previousPrice > movingAverage` and `currentPrice <= movingAverage`, the
two never hold together, a price equal to the average is not above it, and previous 9,
average 10, current 11 is a buy signal while previous 11, average 10, current 12 is
neither. -/
theorem C2_crossover_signals (previousPrice currentPrice movingAverage : ℚ) :
    (buySignal (aboveSma (some previousPrice) movingAverage)
        (aboveSma (some currentPrice) movingAverage) = true
      ↔ previousPrice ≤ movingAverage ∧ currentPrice > movingAverage)
    ∧ (crossDownSignal (aboveSma (some previousPrice) movingAverage)
        (aboveSma (some currentPrice) movingAverage) = true
      ↔ previousPrice > movingAverage ∧ currentPrice ≤ movingAverage)
    ∧ ¬ (buySignal (aboveSma (some previousPrice) movingAverage)
          (aboveSma (some currentPrice) movingAverage) = true
        ∧ crossDownSignal (aboveSma (some previousPrice) movingAverage)
          (aboveSma (some currentPrice) movingAverage) = true)
    ∧ aboveSma (some movingAverage) movingAverage = false
    ∧ buySignal (aboveSma (some 9) 10) (aboveSma (some 11) 10) = true
    ∧ buySignal (aboveSma (some 11) 10) (aboveSma (some 12) 10) = false
    ∧ crossDownSignal (aboveSma (some 11) 10) (aboveSma (some 12) 10) = false := by
  refine ⟨?_, ?_, ?_, ?_, ?_, ?_, ?_⟩
  · simp [buySignal, aboveSma]
  · simp [crossDownSignal, aboveSma]
  · simp only [buySignal, crossDownSignal, aboveSma]
    intro h
    simp at h
    linarith [h.1.1, h.2.1]
  · simp [aboveSma]
  · simp [buySignal, aboveSma]; norm_num
  · simp [buySignal, aboveSma]; norm_num
  · simp [crossDownSignal, aboveSma]; norm_num


/-! ## Moving average -/

theorem foldl_add_eq_sum (l : List ℚ) (a : ℚ) :
    l.foldl (fun a b => a + b) a = a + l.sum := by
  induction l generalizing a with
  | nil => simp
  | cons x l ih => simp [List.foldl_cons, ih, add_assoc]

theorem slice_of_pos (w : ℕ) (hw : 1 ≤ w) (prices : List ℚ) :
    slice w prices = prices.drop (prices.length - w) := by
  have : w ≠ 0 := by omega
  simp [slice, this]

theorem calculateSMA_of_le (w : ℕ) (hw : 1 ≤ w) (prices : List ℚ) (h : w ≤ prices.length) :
    calculateSMA w prices = some ((prices.drop (prices.length - w)).sum / (w : ℚ)) := by
  have : ¬ prices.length < w := by omega
  simp [calculateSMA, this, slice_of_pos w hw, foldl_add_eq_sum]

/-- C4: the slippage floor of the code is `expectedOut * 99 / 100`, since
`Math.floor(SLIPPAGE_TOLERANCE * 100)` is `99`.  In `index.js` the first buy at price 100000
has `expectedOut = 25000` base units and `minAmountOut = 24750`, not
`floor(25000 * 0.995) = 24875`; an expected output of `200` whole tokens of 18 decimals
(notional 100 at rate 2 in `scalpAERO.js`) is floored to `198` whole tokens, not to
`floor(200 * 0.995) = 199`. -/
theorem C4_slippage_floor_is_99_percent :
    ⌊SLIPPAGE_TOLERANCE * 100⌋ = 99
    ∧ (∀ expected : ℤ, 0 ≤ expected → minAmountOut expected = expected * 99 / 100)
    ∧ expectedOut index AMOUNT_IN 100000 = some 25000
    ∧ minAmountOut 25000 = 24750
    ∧ ⌊((25000 : ℤ) : ℚ) * SLIPPAGE_TOLERANCE⌋ = 24875
    ∧ expectedOut scalpAERO (100 * 10 ^ 6) 2 = some (200 * 10 ^ 18)
    ∧ minAmountOut (200 * 10 ^ 18) = 198 * 10 ^ 18
    ∧ ⌊((200 * 10 ^ 18 : ℤ) : ℚ) * SLIPPAGE_TOLERANCE⌋ = 199 * 10 ^ 18
    ∧ minAmountOut (200 * 10 ^ 18) ≠ ⌊((200 * 10 ^ 18 : ℤ) : ℚ) * SLIPPAGE_TOLERANCE⌋ := by
  have h198 : minAmountOut (200 * 10 ^ 18) = 198 * 10 ^ 18 := by
    rw [minAmountOut_eq]; decide
  have h199 : ⌊((200 * 10 ^ 18 : ℤ) : ℚ) * SLIPPAGE_TOLERANCE⌋ = 199 * 10 ^ 18 := by
    rw [Int.floor_eq_iff]
    norm_num [SLIPPAGE_TOLERANCE]
  refine ⟨floor_slippage, minAmountOut_of_nonneg, ?_, ?_, ?_, ?_, h198, h199, ?_⟩
  · have hr : roundHalfUp (25 / 100000) 8 = 25000 :=
      roundHalfUp_eq _ _ _ (by norm_num) (by norm_num)
    have hraw : expectedOutRaw index AMOUNT_IN 100000 = some (25 / 100000) := by
      norm_num [expectedOutRaw, index, numDiv]
    simp only [expectedOut, hraw, Option.some_bind]
    show parseUnits (toFixed (25 / 100000) 8) = _
    rw [toFixed_of_nonneg _ _ (by norm_num) (by norm_num), hr]
    norm_num [parseUnits]
  · rw [minAmountOut_eq]; decide
  · rw [Int.floor_eq_iff]
    norm_num [SLIPPAGE_TOLERANCE]
  · have hr : roundHalfUp 200 18 = 200 * 10 ^ 18 :=
      roundHalfUp_eq _ _ _ (by norm_num) (by norm_num)
    have hf : toFixed 200 18 = NumStr.fixed false (200 * 10 ^ 18) := by
      rw [toFixed_of_nonneg _ _ (by norm_num) (by norm_num), hr]
    have hraw : expectedOutRaw scalpAERO (100 * 10 ^ 6) 2 = some 200 := by
      norm_num [expectedOutRaw, scalpAERO, formatUnits]
    simp only [expectedOut, hraw, Option.some_bind]
    show parseUnits (toFixed 200 18) = _
    rw [hf]
    norm_num [parseUnits]
  · rw [h198, h199]
    norm_num


/-! ## Shape of one iteration -/

@[simp] theorem swaps_nil : swaps [] = [] := rfl

@[simp] theorem swaps_append (a b : List Effect) : swaps (a ++ b) = swaps a ++ swaps b := by
  simp [swaps]

@[simp] theorem swaps_cons_swap (a m : ℤ) (b : Bool) (l : List Effect) :
    swaps (Effect.swap a m b :: l) = Effect.swap a m b :: swaps l := by
  simp [swaps, Effect.isSwap]

@[simp] theorem swaps_cons_getPrice (l : List Effect) :
    swaps (Effect.getPrice :: l) = swaps l := by
  simp [swaps, Effect.isSwap]

@[simp] theorem swaps_cons_log (st : Status) (info : Option (NumStr × NumStr)) (l : List Effect) :
    swaps (Effect.log st info :: l) = swaps l := by
  simp [swaps, Effect.isSwap]

@[simp] theorem swaps_cons_balanceLine (b : NumStr) (l : List Effect) :
    swaps (Effect.balanceLine b :: l) = swaps l := by
  simp [swaps, Effect.isSwap]

@[simp] theorem swaps_cons_insufficient (l : List Effect) :
    swaps (Effect.insufficient :: l) = swaps l := by
  simp [swaps, Effect.isSwap]

@[simp] theorem swaps_cons_sleep (l : List Effect) : swaps (Effect.sleep :: l) = swaps l := by
  simp [swaps, Effect.isSwap]

@[simp] theorem swaps_cons_error (l : List Effect) : swaps (Effect.error :: l) = swaps l := by
  simp [swaps, Effect.isSwap]

@[simp] theorem swaps_logStatus (st : Status) (info : Option (NumStr × NumStr))
    (cur : Option Status) : swaps (logStatus st info cur).2 = [] := by
  unfold logStatus
  split <;> simp

theorem tryBody_long (cfg : Config) (s : State) (price sma entry : ℚ)
    (hsma : calculateSMA cfg.SMA_WINDOW s.priceHistory = some sma) (hsma0 : sma ≠ 0)
    (hentry : s.lastBuyPrice = some entry) (hlong : entry ≠ 0) :
    tryBody cfg s price
      = long cfg s price sma entry (aboveSma (prevPrice s.priceHistory) sma)
          (aboveSma (some price) sma) := by
  simp [tryBody, hsma, hsma0, hentry, hlong]

theorem tryBody_flat (cfg : Config) (s : State) (price sma : ℚ)
    (hsma : calculateSMA cfg.SMA_WINDOW s.priceHistory = some sma) (hsma0 : sma ≠ 0)
    (hflat : truthy s.lastBuyPrice = false) :
    tryBody cfg s price
      = flat cfg s price (aboveSma (prevPrice s.priceHistory) sma)
          (aboveSma (some price) sma) := by
  cases hl : s.lastBuyPrice with
  | none => simp [tryBody, hsma, hsma0, hl]
  | some e =>
    have : e = 0 := by simpa [truthy, hl] using hflat
    simp [tryBody, hsma, hsma0, hl, this]

theorem tryBody_wait (cfg : Config) (s : State) (price : ℚ)
    (hsma : truthy (calculateSMA cfg.SMA_WINDOW s.priceHistory) = false) :
    tryBody cfg s price = waitForData s := by
  cases h : calculateSMA cfg.SMA_WINDOW s.priceHistory with
  | none => simp [tryBody, h]
  | some sma =>
    have : sma = 0 := by simpa [truthy, h] using hsma
    simp [tryBody, h, this]

theorem swaps_sell (cfg : Config) (s : State) (price profit : ℚ) (a b : Bool) (expected : ℤ)
    (h : expectedUsdc cfg s.tokenBalance price = some expected) :
    swaps (sell cfg s price profit a b).2
      = [Effect.swap s.tokenBalance (minAmountOut expected) false] := by
  simp [sell, h]

theorem swaps_hold (cfg : Config) (s : State) (price sma profit : ℚ) :
    swaps (hold cfg s price sma profit).2 = [] := by
  simp only [hold]
  split <;> simp

theorem exitCondition_iff (cfg : Config) (a b : Bool) (profit : ℚ) :
    exitCondition cfg a b profit = true
      ↔ (cfg.exitOnCrossover = true ∧ crossDownSignal a b = true)
        ∨ profit ≥ cfg.PROFIT_TARGET ∨ profit ≤ cfg.STOP_LOSS := by
  unfold exitCondition
  cases cfg.exitOnCrossover <;> simp [or_assoc]

theorem buySignal_iff (previous : Option ℚ) (price sma : ℚ) :
    buySignal (aboveSma previous sma) (aboveSma (some price) sma) = true
      ↔ (∀ previousPrice, previous = some previousPrice → previousPrice ≤ sma)
        ∧ price > sma := by
  cases previous <;> simp [buySignal, aboveSma]

theorem scalpCycle_long (cfg : Config) (s : State) (price sma entry : ℚ)
    (hentry : s.lastBuyPrice = some entry) (hlong : entry ≠ 0)
    (hsma : calculateSMA cfg.SMA_WINDOW (pushPrice cfg.SMA_WINDOW s.priceHistory price)
      = some sma)
    (hsma0 : sma ≠ 0) :
    scalpCycle cfg s (some price)
      = ((long cfg { s with priceHistory := pushPrice cfg.SMA_WINDOW s.priceHistory price }
            price sma entry
            (aboveSma (prevPrice (pushPrice cfg.SMA_WINDOW s.priceHistory price)) sma)
            (aboveSma (some price) sma)).1,
          Effect.getPrice ::
            (long cfg { s with priceHistory := pushPrice cfg.SMA_WINDOW s.priceHistory price }
              price sma entry
              (aboveSma (prevPrice (pushPrice cfg.SMA_WINDOW s.priceHistory price)) sma)
              (aboveSma (some price) sma)).2) := by
  have hbody := tryBody_long cfg
    { s with priceHistory := pushPrice cfg.SMA_WINDOW s.priceHistory price } price sma entry
    hsma hsma0 hentry hlong
  simp only [scalpCycle, hbody]

theorem scalpCycle_flat (cfg : Config) (s : State) (price sma : ℚ)
    (hflat : truthy s.lastBuyPrice = false)
    (hsma : calculateSMA cfg.SMA_WINDOW (pushPrice cfg.SMA_WINDOW s.priceHistory price)
      = some sma)
    (hsma0 : sma ≠ 0) :
    scalpCycle cfg s (some price)
      = ((flat cfg { s with priceHistory := pushPrice cfg.SMA_WINDOW s.priceHistory price }
            price
            (aboveSma (prevPrice (pushPrice cfg.SMA_WINDOW s.priceHistory price)) sma)
            (aboveSma (some price) sma)).1,
          Effect.getPrice ::
            (flat cfg { s with priceHistory := pushPrice cfg.SMA_WINDOW s.priceHistory price }
              price
              (aboveSma (prevPrice (pushPrice cfg.SMA_WINDOW s.priceHistory price)) sma)
              (aboveSma (some price) sma)).2) := by
  have hbody := tryBody_flat cfg
    { s with priceHistory := pushPrice cfg.SMA_WINDOW s.priceHistory price } price sma
    hsma hsma0 hflat
  simp only [scalpCycle, hbody]

theorem sell_state (cfg : Config) (s : State) (price profit : ℚ) (a b : Bool) (expected : ℤ)
    (h : expectedUsdc cfg s.tokenBalance price = some expected) :
    (sell cfg s price profit a b).1.lastBuyPrice = none
    ∧ (sell cfg s price profit a b).1.tokenBalance = 0
    ∧ (sell cfg s price profit a b).1.lastProfitLogged = none := by
  simp [sell, h]

theorem hold_state (cfg : Config) (s : State) (price sma profit : ℚ) :
    (hold cfg s price sma profit).1.lastBuyPrice = s.lastBuyPrice
    ∧ (hold cfg s price sma profit).1.tokenBalance = s.tokenBalance := by
  simp only [hold]
  split <;> simp

theorem position_flat_of_none (s : State) (h : s.lastBuyPrice = none) :
    s.position = Position.FLAT := by
  simp [State.position, h, truthy]

theorem position_long_of_some (s : State) (entry : ℚ) (h : s.lastBuyPrice = some entry)
    (he : entry ≠ 0) : s.position = Position.LONG := by
  simp [State.position, h, truthy, he]

theorem position_flat_iff (s : State) :
    s.position = Position.FLAT ↔ truthy s.lastBuyPrice = false := by
  unfold State.position
  cases truthy s.lastBuyPrice <;> simp

/-! ## Exit decision -/

/-- What an iteration leaves of the position variables: untouched, a buy, or a sell. -/
theorem tryBody_cases (cfg : Config) (s : State) (price : ℚ) :
    ((tryBody cfg s price).1.lastBuyPrice = s.lastBuyPrice
      ∧ (tryBody cfg s price).1.tokenBalance = s.tokenBalance
      ∧ (tryBody cfg s price).1.simulatedUsdcBalance = s.simulatedUsdcBalance
      ∧ swaps (tryBody cfg s price).2 = [])
    ∨ (∃ amountIn expected,
        truthy s.lastBuyPrice = false
        ∧ (if cfg.fullBalance then
            calculateTradeAmount s.simulatedUsdcBalance = some amountIn
              ∧ 0 < formatUnits amountIn 6
          else amountIn = AMOUNT_IN)
        ∧ expectedOut cfg amountIn price = some expected
        ∧ (tryBody cfg s price).1.lastBuyPrice = some price
        ∧ (tryBody cfg s price).1.tokenBalance = minAmountOut expected
        ∧ (tryBody cfg s price).1.simulatedUsdcBalance
            = (if cfg.fullBalance then s.simulatedUsdcBalance - formatUnits amountIn 6
              else s.simulatedUsdcBalance)
        ∧ swaps (tryBody cfg s price).2 = [Effect.swap amountIn (minAmountOut expected) true])
    ∨ (∃ expected,
        truthy s.lastBuyPrice = true
        ∧ expectedUsdc cfg s.tokenBalance price = some expected
        ∧ (tryBody cfg s price).1.lastBuyPrice = none
        ∧ (tryBody cfg s price).1.tokenBalance = 0
        ∧ (tryBody cfg s price).1.lastProfitLogged = none
        ∧ (tryBody cfg s price).1.simulatedUsdcBalance
            = (if cfg.fullBalance then
                s.simulatedUsdcBalance + formatUnits (minAmountOut expected) 6
              else s.simulatedUsdcBalance)
        ∧ swaps (tryBody cfg s price).2
            = [Effect.swap s.tokenBalance (minAmountOut expected) false]) := by
  have hwait : (waitForData s).1.lastBuyPrice = s.lastBuyPrice
      ∧ (waitForData s).1.tokenBalance = s.tokenBalance
      ∧ (waitForData s).1.simulatedUsdcBalance = s.simulatedUsdcBalance
      ∧ swaps (waitForData s).2 = [] := by
    simp [waitForData]
  have hflat : ∀ a b : Bool, truthy s.lastBuyPrice = false →
      ((flat cfg s price a b).1.lastBuyPrice = s.lastBuyPrice
        ∧ (flat cfg s price a b).1.tokenBalance = s.tokenBalance
        ∧ (flat cfg s price a b).1.simulatedUsdcBalance = s.simulatedUsdcBalance
        ∧ swaps (flat cfg s price a b).2 = [])
      ∨ (∃ amountIn expected,
          truthy s.lastBuyPrice = false
          ∧ (if cfg.fullBalance then
              calculateTradeAmount s.simulatedUsdcBalance = some amountIn
                ∧ 0 < formatUnits amountIn 6
            else amountIn = AMOUNT_IN)
          ∧ expectedOut cfg amountIn price = some expected
          ∧ (flat cfg s price a b).1.lastBuyPrice = some price
          ∧ (flat cfg s price a b).1.tokenBalance = minAmountOut expected
          ∧ (flat cfg s price a b).1.simulatedUsdcBalance
              = (if cfg.fullBalance then s.simulatedUsdcBalance - formatUnits amountIn 6
                else s.simulatedUsdcBalance)
          ∧ swaps (flat cfg s price a b).2
              = [Effect.swap amountIn (minAmountOut expected) true]) := by
    intro a b hf
    unfold flat
    by_cases hsig : buySignal a b = true
    · rw [if_pos hsig]
      unfold buy
      by_cases hfull : cfg.fullBalance = true
      · rw [if_pos hfull]
        cases hamt : calculateTradeAmount s.simulatedUsdcBalance with
        | none => left; simp
        | some amountIn =>
          by_cases hle : formatUnits amountIn 6 ≤ 0
          · left; simp [hle]
          · cases hexp : expectedOut cfg amountIn price with
            | none => left; simp [hle, buyWith, hexp]
            | some expected =>
              right
              refine ⟨amountIn, expected, hf, ?_, hexp, ?_⟩
              · simp [hfull, not_le.mp hle]
              · simp [hle, buyWith, hexp, hfull]
      · rw [if_neg hfull]
        cases hexp : expectedOut cfg AMOUNT_IN price with
        | none => left; simp [buyWith, hexp]
        | some expected =>
          right
          refine ⟨AMOUNT_IN, expected, hf, ?_, hexp, ?_⟩
          · simp [hfull]
          · simp [buyWith, hexp, hfull]
    · rw [if_neg hsig]
      left; simp
  unfold tryBody
  cases hsma : calculateSMA cfg.SMA_WINDOW s.priceHistory with
  | none => left; simpa using hwait
  | some sma =>
    by_cases h0 : sma = 0
    · left; simpa [h0] using hwait
    · simp only [h0, if_false]
      cases hl : s.lastBuyPrice with
      | none =>
        have hf : truthy s.lastBuyPrice = false := by simp [truthy, hl]
        rcases hflat (aboveSma (prevPrice s.priceHistory) sma) (aboveSma (some price) sma) hf
          with h | h
        · left; simpa [hl] using h
        · right; left; simpa [hl] using h
      | some entry =>
        by_cases he : entry = 0
        · have hf : truthy s.lastBuyPrice = false := by simp [truthy, hl, he]
          rcases hflat (aboveSma (prevPrice s.priceHistory) sma) (aboveSma (some price) sma) hf
            with h | h
          · left; simpa [hl, he] using h
          · right; left; simpa [hl, he] using h
        · simp only [he, if_false, long]
          by_cases hex : exitCondition cfg (aboveSma (prevPrice s.priceHistory) sma)
              (aboveSma (some price) sma) (profitOf price entry) = true
          · rw [if_pos hex]
            cases hexp : expectedUsdc cfg s.tokenBalance price with
            | none => left; simp [sell, hexp, hl]
            | some expected =>
              right; right
              refine ⟨expected, by simp [truthy, hl, he], rfl, ?_⟩
              simp [sell, hexp]
          · rw [if_neg hex]
            left
            simp only [hold]
            split <;> simp [hl]


/-! ## Runs of the loop -/

theorem scalp_append (cfg : Config) (s : State) (a b : List (Option ℚ)) :
    scalp cfg s (a ++ b)
      = ((scalp cfg (scalp cfg s a).1 b).1,
          (scalp cfg s a).2 ++ (scalp cfg (scalp cfg s a).1 b).2) := by
  induction a generalizing s with
  | nil => simp [scalp]
  | cons t ts ih => simp [scalp, ih, List.append_assoc]

theorem scalp_snoc_state (cfg : Config) (s : State) (a : List (Option ℚ)) (t : Option ℚ) :
    (scalp cfg s (a ++ [t])).1 = (scalpCycle cfg (scalp cfg s a).1 t).1 := by
  rw [scalp_append]
  simp only [scalp]

theorem scalp_invariant (cfg : Config) (P : State → Prop) (ticks : List (Option ℚ))
    (s : State) (h0 : P s) (hstep : ∀ s t, t ∈ ticks → P s → P (scalpCycle cfg s t).1) :
    P (scalp cfg s ticks).1 := by
  induction ticks generalizing s with
  | nil => simpa [scalp] using h0
  | cons t ts ih =>
    simp only [scalp]
    apply ih
    · exact hstep s t (List.mem_cons_self _ _) h0
    · intro s' t' ht' hs'
      exact hstep s' t' (List.mem_cons_of_mem _ ht') hs'



theorem parseUnits_toFixed_isSome (x : ℚ) (d : ℕ) (h : |x| < 10 ^ 21) :
    ∃ n, parseUnits (toFixed x d) = some n := by
  unfold toFixed
  rw [if_neg (not_le.mpr h)]
  exact ⟨_, rfl⟩

theorem parseUnits_toFixed_eq (x : ℚ) (d n : ℕ) (h0 : 0 ≤ x) (hlt : x < 10 ^ 21)
    (h1 : (n : ℚ) ≤ x * 10 ^ d + 1 / 2) (h2 : x * 10 ^ d + 1 / 2 < (n : ℚ) + 1) :
    parseUnits (toFixed x d) = some (n : ℤ) := by
  rw [toFixed_of_nonneg x d h0 hlt, roundHalfUp_eq x d n h1 h2]
  simp [parseUnits]

theorem calculateSMA_pushed_replicate (w : ℕ) (hw : 1 ≤ w) (p q : ℚ) :
    calculateSMA w (pushPrice w (List.replicate w p) q)
      = some (((w - 1 : ℕ) * p + q) / (w : ℚ)) := by
  have hpush : pushPrice w (List.replicate w p) q = List.replicate w p ++ [q] := by
    simp [pushPrice]
  rw [hpush, calculateSMA_of_le w hw _ (by simp)]
  have hdrop : List.drop ((List.replicate w p ++ [q]).length - w) (List.replicate w p ++ [q])
      = List.replicate (w - 1) p ++ [q] := by
    have h1 : (List.replicate w p ++ [q]).length - w = 1 := by simp
    rw [h1, List.drop_append_of_le_length (by simpa using hw), List.drop_replicate]
  rw [hdrop]
  simp [List.sum_replicate]

theorem prevPrice_pushed_replicate (w : ℕ) (hw : 1 ≤ w) (p q : ℚ) :
    prevPrice (pushPrice w (List.replicate w p) q) = some p := by
  have hpush : pushPrice w (List.replicate w p) q = List.replicate w p ++ [q] := by
    simp [pushPrice]
  rw [hpush]
  unfold prevPrice
  have hlen : (List.replicate w p ++ [q]).length = w + 1 := by simp
  rw [hlen, if_neg (by omega)]
  have : w + 1 - 2 = w - 1 := by omega
  rw [this, List.get?_eq_getElem?, List.getElem?_append_left (by simp; omega)]
  simp [List.getElem?_replicate]
  omega

theorem scalpCycle_buy (cfg : Config) (s : State) (price sma : ℚ) (amountIn expected : ℤ)
    (hf : truthy s.lastBuyPrice = false)
    (hsma : calculateSMA cfg.SMA_WINDOW (pushPrice cfg.SMA_WINDOW s.priceHistory price)
      = some sma)
    (hsma0 : sma ≠ 0)
    (hsig : buySignal
      (aboveSma (prevPrice (pushPrice cfg.SMA_WINDOW s.priceHistory price)) sma)
      (aboveSma (some price) sma) = true)
    (hfixed : cfg.fullBalance = false → amountIn = AMOUNT_IN)
    (hfull : cfg.fullBalance = true →
      calculateTradeAmount s.simulatedUsdcBalance = some amountIn ∧ 0 < formatUnits amountIn 6)
    (hsize : expectedOut cfg amountIn price = some expected) :
    (scalpCycle cfg s (some price)).1.lastBuyPrice = some price
    ∧ (scalpCycle cfg s (some price)).1.tokenBalance = minAmountOut expected
    ∧ swaps (scalpCycle cfg s (some price)).2
      = [Effect.swap amountIn (minAmountOut expected) true]
    ∧ (scalpCycle cfg s (some price)).1.simulatedUsdcBalance
      = (if cfg.fullBalance then s.simulatedUsdcBalance - formatUnits amountIn 6
        else s.simulatedUsdcBalance) := by
  rw [scalpCycle_flat cfg s price sma hf hsma hsma0]
  simp only [flat, if_pos hsig, buy]
  by_cases hfb : cfg.fullBalance = true
  · obtain ⟨hamt, hpos⟩ := hfull hfb
    simp [hfb, hamt, not_le.mpr hpos, buyWith, hsize]
  · have hfb' : cfg.fullBalance = false := by simpa using hfb
    have ha := hfixed hfb'
    subst ha
    simp [hfb', buyWith, hsize]

/-- C8, as stated, fails: in `index.js`, long from 100 with no downward crossover (sixty
samples at 97, so neither price is above the average), the tick at 97 has profit exactly
`-0.03 = STOP_LOSS`, the test `profit <= STOP_LOSS` holds, and the position is sold. -/
theorem C8_tick_at_97_exits :
    profitOf 97 100 = index.STOP_LOSS
    ∧ crossDownSignal
        (aboveSma (prevPrice (pushPrice index.SMA_WINDOW (List.replicate 60 97) 97)) 97)
        (aboveSma (some 97) 97) = false
    ∧ ¬ (profitOf 97 100 ≥ index.PROFIT_TARGET)
    ∧ swaps (scalpCycle index
        { priceHistory := List.replicate 60 97, currentStatus := none,
          simulatedUsdcBalance := 25, lastBuyPrice := some 100, tokenBalance := 24750000,
          lastProfitLogged := none } (some 97)).2
      = [Effect.swap 24750000 (minAmountOut 24007500) false]
    ∧ (scalpCycle index
        { priceHistory := List.replicate 60 97, currentStatus := none,
          simulatedUsdcBalance := 25, lastBuyPrice := some 100, tokenBalance := 24750000,
          lastProfitLogged := none } (some 97)).1.position = Position.FLAT := by
  have hsma : calculateSMA index.SMA_WINDOW
      (pushPrice index.SMA_WINDOW (List.replicate 60 97) 97) = some 97 := by
    have := calculateSMA_pushed_replicate 60 (by norm_num) 97 97
    rw [show index.SMA_WINDOW = 60 from rfl, this]
    norm_num
  have hsize : expectedUsdc index 24750000 97 = some 24007500 := by
    have := parseUnits_toFixed_eq (formatUnits 24750000 8 * 97) 6 24007500
      (by norm_num [formatUnits]) (by norm_num [formatUnits]) (by norm_num [formatUnits])
      (by norm_num [formatUnits])
    simpa [expectedUsdc, expectedUsdcRaw, index] using this
  have hex : ∀ a b : Bool, exitCondition index a b (profitOf 97 100) = true := by
    intro a b
    rw [exitCondition_iff]
    right; right
    norm_num [profitOf, index]
  have hcycle := scalpCycle_long index
    { priceHistory := List.replicate 60 97, currentStatus := none,
      simulatedUsdcBalance := 25, lastBuyPrice := some 100, tokenBalance := 24750000,
      lastProfitLogged := none } 97 97 100 rfl (by norm_num) hsma (by norm_num)
  have hs := swaps_sell index
    { priceHistory := pushPrice index.SMA_WINDOW (List.replicate 60 97) 97,
      currentStatus := none, simulatedUsdcBalance := 25, lastBuyPrice := some 100,
      tokenBalance := 24750000, lastProfitLogged := none } 97 (profitOf 97 100)
    (aboveSma (prevPrice (pushPrice index.SMA_WINDOW (List.replicate 60 97) 97)) 97)
    (aboveSma (some 97) 97) 24007500 hsize
  have hst := sell_state index
    { priceHistory := pushPrice index.SMA_WINDOW (List.replicate 60 97) 97,
      currentStatus := none, simulatedUsdcBalance := 25, lastBuyPrice := some 100,
      tokenBalance := 24750000, lastProfitLogged := none } 97 (profitOf 97 100)
    (aboveSma (prevPrice (pushPrice index.SMA_WINDOW (List.replicate 60 97) 97)) 97)
    (aboveSma (some 97) 97) 24007500 hsize
  refine ⟨by norm_num [profitOf, index], ?_, by norm_num [profitOf, index], ?_, ?_⟩
  · rw [show index.SMA_WINDOW = 60 from rfl, prevPrice_pushed_replicate 60 (by norm_num)]
    simp [crossDownSignal, aboveSma]
  · rw [hcycle]
    simp only [long, hex, if_true, swaps_cons_getPrice]
    exact hs
  · rw [hcycle]
    simp only [long, hex, if_true]
    exact position_flat_of_none _ hst.1

/-- C8, amended: in `index.js`, long from 100 (stop-loss -0.03, profit target 0.02), on a
tick that passes the moving-average gate without a downward crossover and whose sizing does
not throw, the position stays long exactly when the price is strictly between 97 and 102;
the tick at 97 has profit exactly `STOP_LOSS` and is sold, as is the tick at 96.9. -/
theorem C8_stop_loss_boundary (s : State) (price sma : ℚ)
    (hentry : s.lastBuyPrice = some 100)
    (hsma : calculateSMA index.SMA_WINDOW (pushPrice index.SMA_WINDOW s.priceHistory price)
      = some sma)
    (hsma0 : sma ≠ 0)
    (hnocross : crossDownSignal
        (aboveSma (prevPrice (pushPrice index.SMA_WINDOW s.priceHistory price)) sma)
        (aboveSma (some price) sma) = false)
    (hsize : expectedUsdc index s.tokenBalance price ≠ none) :
    ((scalpCycle index s (some price)).1.position = Position.LONG
      ↔ 97 < price ∧ price < 102)
    ∧ (97 < price ∧ price < 102 → swaps (scalpCycle index s (some price)).2 = [])
    ∧ (price ≤ 97 → ∃ minOut, swaps (scalpCycle index s (some price)).2
        = [Effect.swap s.tokenBalance minOut false])
    ∧ profitOf 97 100 = index.STOP_LOSS
    ∧ profitOf (969 / 10) 100 ≤ index.STOP_LOSS := by
  obtain ⟨expected, hexp⟩ := Option.ne_none_iff_exists'.mp hsize
  have hcycle := scalpCycle_long index s price sma 100 hentry (by norm_num) hsma hsma0
  have hex : exitCondition index
      (aboveSma (prevPrice (pushPrice index.SMA_WINDOW s.priceHistory price)) sma)
      (aboveSma (some price) sma) (profitOf price 100) = true
      ↔ ¬ (97 < price ∧ price < 102) := by
    rw [exitCondition_iff, hnocross]
    simp only [index, profitOf]
    constructor
    · rintro (⟨_, h⟩ | h | h)
      · simp at h
      · intro hc
        have : (2 : ℚ) / 100 ≤ (price - 100) / 100 := h
        linarith [hc.2]
      · intro hc
        have : (price - 100) / 100 ≤ (-3 : ℚ) / 100 := h
        linarith [hc.1]
    · intro hc
      right
      by_cases h97 : 97 < price
      · left
        have : 102 ≤ price := not_lt.mp (fun h => hc ⟨h97, h⟩)
        show (2 : ℚ) / 100 ≤ (price - 100) / 100
        linarith
      · right
        have : price ≤ 97 := not_lt.mp h97
        show (price - 100) / 100 ≤ (-3 : ℚ) / 100
        linarith
  have hs := swaps_sell index
    { s with priceHistory := pushPrice index.SMA_WINDOW s.priceHistory price } price
    (profitOf price 100)
    (aboveSma (prevPrice (pushPrice index.SMA_WINDOW s.priceHistory price)) sma)
    (aboveSma (some price) sma) expected hexp
  have hst := sell_state index
    { s with priceHistory := pushPrice index.SMA_WINDOW s.priceHistory price } price
    (profitOf price 100)
    (aboveSma (prevPrice (pushPrice index.SMA_WINDOW s.priceHistory price)) sma)
    (aboveSma (some price) sma) expected hexp
  have hh := hold_state index
    { s with priceHistory := pushPrice index.SMA_WINDOW s.priceHistory price } price sma
    (profitOf price 100)
  refine ⟨?_, ?_, ?_, by norm_num [profitOf, index], by norm_num [profitOf, index]⟩
  · rw [hcycle]
    simp only [long]
    by_cases hin : 97 < price ∧ price < 102
    · rw [if_neg (by rw [hex]; exact not_not.mpr hin)]
      have := position_long_of_some _ 100 (hh.1.trans hentry) (by norm_num)
      exact ⟨fun _ => hin, fun _ => this⟩
    · rw [if_pos (hex.mpr hin)]
      have := position_flat_of_none _ hst.1
      constructor
      · intro h
        rw [this] at h
        cases h
      · intro h
        exact absurd h hin
  · intro hin
    rw [hcycle]
    simp only [long]
    rw [if_neg (by rw [hex]; exact not_not.mpr hin)]
    simp [swaps_hold]
  · intro hle
    rw [hcycle]
    simp only [long]
    rw [if_pos (hex.mpr (fun hc => absurd hc.1 (not_lt.mpr hle)))]
    exact ⟨_, by simpa using hs⟩

/-- Instance of amended C8: long from 100 on sixty samples at 98, the tick at 98 is held. -/
theorem C8_stop_loss_boundary_witness :
    (scalpCycle index
        { priceHistory := List.replicate 60 98, currentStatus := none,
          simulatedUsdcBalance := 25, lastBuyPrice := some 100, tokenBalance := 24750000,
          lastProfitLogged := none } (some 98)).1.position = Position.LONG := by
  have hsma : calculateSMA index.SMA_WINDOW
      (pushPrice index.SMA_WINDOW (List.replicate 60 98) 98) = some 98 := by
    have := calculateSMA_pushed_replicate 60 (by norm_num) 98 98
    rw [show index.SMA_WINDOW = 60 from rfl, this]
    norm_num
  have hsize : expectedUsdc index 24750000 98 ≠ none := by
    obtain ⟨n, hn⟩ := parseUnits_toFixed_isSome (formatUnits 24750000 8 * 98) 6
      (by norm_num [formatUnits, abs_of_nonneg])
    simp [expectedUsdc, expectedUsdcRaw, index, hn]
  have hnocross : crossDownSignal
      (aboveSma (prevPrice (pushPrice index.SMA_WINDOW (List.replicate 60 98) 98)) 98)
      (aboveSma (some 98) 98) = false := by
    rw [show index.SMA_WINDOW = 60 from rfl, prevPrice_pushed_replicate 60 (by norm_num)]
    simp [crossDownSignal, aboveSma]
  exact ((C8_stop_loss_boundary
    { priceHistory := List.replicate 60 98, currentStatus := none,
      simulatedUsdcBalance := 25, lastBuyPrice := some 100, tokenBalance := 24750000,
      lastProfitLogged := none } 98 98 rfl hsma (by norm_num) hnocross hsize).1).mpr
    (by norm_num)


/-! ## Price history -/

theorem tryBody_priceHistory (cfg : Config) (s : State) (price : ℚ) :
    (tryBody cfg s price).1.priceHistory = s.priceHistory := by
  have hwait : (waitForData s).1.priceHistory = s.priceHistory := by simp [waitForData]
  have hflat : ∀ a b : Bool, (flat cfg s price a b).1.priceHistory = s.priceHistory := by
    intro a b
    unfold flat
    by_cases hsig : buySignal a b = true
    · rw [if_pos hsig]
      unfold buy
      by_cases hfull : cfg.fullBalance = true
      · rw [if_pos hfull]
        cases hamt : calculateTradeAmount s.simulatedUsdcBalance with
        | none => simp
        | some amountIn =>
          by_cases hle : formatUnits amountIn 6 ≤ 0
          · simp [hle]
          · cases hexp : expectedOut cfg amountIn price <;> simp [hle, buyWith, hexp]
      · rw [if_neg hfull]
        cases hexp : expectedOut cfg AMOUNT_IN price <;> simp [buyWith, hexp]
    · rw [if_neg hsig]
  unfold tryBody
  cases hsma : calculateSMA cfg.SMA_WINDOW s.priceHistory with
  | none => simpa using hwait
  | some sma =>
    by_cases h0 : sma = 0
    · simpa [h0] using hwait
    · simp only [h0, if_false]
      cases hl : s.lastBuyPrice with
      | none => simpa using hflat _ _
      | some entry =>
        by_cases he : entry = 0
        · simpa [he] using hflat _ _
        · simp only [he, if_false, long]
          split
          · cases hexp : expectedUsdc cfg s.tokenBalance price <;> simp [sell, hexp]
          · simp only [hold]
            split <;> simp

theorem scalpCycle_priceHistory (cfg : Config) (s : State) (price : ℚ) :
    (scalpCycle cfg s (some price)).1.priceHistory
      = pushPrice cfg.SMA_WINDOW s.priceHistory price := by
  simp only [scalpCycle]
  rw [tryBody_priceHistory]

theorem pushPrice_eq_drop (w : ℕ) (history : List ℚ) (price : ℚ)
    (h : history.length ≤ w + 1) :
    pushPrice w history price
      = (history ++ [price]).drop ((history ++ [price]).length - (w + 1)) := by
  unfold pushPrice
  by_cases hfull : history.length = w + 1
  · have h1 : (history ++ [price]).length - (w + 1) = 1 := by simp [hfull]
    have h2 : (history ++ [price]).length > w + 1 := by simp [hfull]
    simp only [h2, if_true, h1, List.drop_one]
  · have h1 : (history ++ [price]).length - (w + 1) = 0 := by
      simp only [List.length_append, List.length_singleton]; omega
    have h2 : ¬ (history ++ [price]).length > w + 1 := by
      simp only [List.length_append, List.length_singleton]; omega
    simp only [h2, if_false, h1, List.drop_zero]

theorem pushPrice_length_le (w : ℕ) (history : List ℚ) (price : ℚ)
    (h : history.length ≤ w + 1) : (pushPrice w history price).length ≤ w + 1 := by
  rw [pushPrice_eq_drop w history price h]
  simp only [List.length_drop, List.length_append, List.length_singleton]
  omega

theorem scalp_priceHistory (cfg : Config) (ticks : List (Option ℚ)) (s : State)
    (h : s.priceHistory.length ≤ cfg.SMA_WINDOW + 1) :
    (scalp cfg s ticks).1.priceHistory
      = (s.priceHistory ++ ticks.reduceOption).drop
          ((s.priceHistory ++ ticks.reduceOption).length - (cfg.SMA_WINDOW + 1)) := by
  induction ticks generalizing s with
  | nil =>
    have : s.priceHistory.length - (cfg.SMA_WINDOW + 1) = 0 := by omega
    simp [scalp, this]
  | cons t ts ih =>
    cases t with
    | none =>
      simp only [scalp, List.reduceOption_cons_of_none]
      exact ih s h
    | some p =>
      simp only [scalp, List.reduceOption_cons_of_some]
      have hlen : (scalpCycle cfg s (some p)).1.priceHistory.length ≤ cfg.SMA_WINDOW + 1 := by
        rw [scalpCycle_priceHistory]
        exact pushPrice_length_le _ _ _ h
      rw [ih _ hlen, scalpCycle_priceHistory, pushPrice_eq_drop _ _ _ h]
      have happ : s.priceHistory ++ p :: ts.reduceOption
          = (s.priceHistory ++ [p]) ++ ts.reduceOption := by simp
      rw [happ]
      generalize s.priceHistory ++ [p] = l
      generalize ts.reduceOption = r
      by_cases hl : l.length ≤ cfg.SMA_WINDOW + 1
      · have : l.length - (cfg.SMA_WINDOW + 1) = 0 := by omega
        rw [this, List.drop_zero]
      · have hk : l.length - (cfg.SMA_WINDOW + 1) ≤ l.length := by omega
        rw [← List.drop_append_of_le_length hk, List.drop_drop]
        congr 1
        simp only [List.length_append, List.length_drop]
        omega

theorem reduceOption_map_some (prices : List ℚ) :
    (prices.map some).reduceOption = prices := by
  induction prices with
  | nil => rfl
  | cons p ps ih => rw [List.map_cons, List.reduceOption_cons_of_some, ih]

theorem scalp_init_priceHistory (cfg : Config) (ticks : List (Option ℚ)) :
    (scalp cfg State.init ticks).1.priceHistory
      = ticks.reduceOption.drop (ticks.reduceOption.length - (cfg.SMA_WINDOW + 1)) := by
  have h := scalp_priceHistory cfg ticks State.init (by simp [State.init])
  simpa [State.init] using h

/-- C9: starting from an empty history, after any sequence of calls of `getPrice()`, of
which `n` returned a price, the history is exactly the last `min(n, SMA_WINDOW + 1)` of the
returned prices in arrival order; its length never exceeds `SMA_WINDOW + 1`, and one push
either keeps every entry or drops only the oldest one. -/
theorem C9_history_is_recent_suffix (cfg : Config) (ticks : List (Option ℚ)) :
    (scalp cfg State.init ticks).1.priceHistory
        = ticks.reduceOption.drop (ticks.reduceOption.length - (cfg.SMA_WINDOW + 1))
    ∧ (scalp cfg State.init ticks).1.priceHistory.length
        = min ticks.reduceOption.length (cfg.SMA_WINDOW + 1)
    ∧ (scalp cfg State.init ticks).1.priceHistory.length ≤ cfg.SMA_WINDOW + 1
    ∧ (∀ prices : List ℚ, (prices.map some).reduceOption = prices)
    ∧ (∀ (history : List ℚ) (price : ℚ),
        pushPrice cfg.SMA_WINDOW history price = history ++ [price]
        ∨ pushPrice cfg.SMA_WINDOW history price = history.tail ++ [price]) := by
  have h' := scalp_init_priceHistory cfg ticks
  refine ⟨h', ?_, ?_, ?_, ?_⟩
  · rw [h', List.length_drop]; omega
  · rw [h', List.length_drop]; omega
  · intro prices
    exact reduceOption_map_some prices
  · intro history price
    unfold pushPrice
    by_cases hgt : (history ++ [price]).length > cfg.SMA_WINDOW + 1
    · right
      simp only [hgt, if_true]
      cases history with
      | nil => simp at hgt
      | cons x xs => simp
    · left
      simp only [hgt, if_false]

/-! ## Moving average over the history -/

theorem scalpCycle_none (cfg : Config) (s : State) :
    scalpCycle cfg s none = (s, [Effect.getPrice, Effect.error]) := rfl

/-- What an iteration leaves of the position variables, for any result of `getPrice()`. -/
theorem scalpCycle_cases (cfg : Config) (s : State) (fetched : Option ℚ) :
    ((scalpCycle cfg s fetched).1.lastBuyPrice = s.lastBuyPrice
      ∧ (scalpCycle cfg s fetched).1.tokenBalance = s.tokenBalance)
    ∨ (∃ price amountIn expected,
        fetched = some price
        ∧ (cfg.fullBalance = false → amountIn = AMOUNT_IN)
        ∧ expectedOut cfg amountIn price = some expected
        ∧ (scalpCycle cfg s fetched).1.lastBuyPrice = some price
        ∧ (scalpCycle cfg s fetched).1.tokenBalance = minAmountOut expected)
    ∨ ((scalpCycle cfg s fetched).1.lastBuyPrice = none
        ∧ (scalpCycle cfg s fetched).1.tokenBalance = 0) := by
  cases fetched with
  | none => left; exact ⟨rfl, rfl⟩
  | some price =>
    rcases tryBody_cases cfg
      { s with priceHistory := pushPrice cfg.SMA_WINDOW s.priceHistory price } price
      with h | ⟨amountIn, expected, _, hamt, hexp, h1, h2, _⟩ | ⟨expected, _, _, h1, h2, _⟩
    · left; exact ⟨h.1, h.2.1⟩
    · right; left
      refine ⟨price, amountIn, expected, rfl, ?_, hexp, h1, h2⟩
      intro hfb
      simpa [hfb] using hamt
    · right; right; exact ⟨h1, h2⟩

theorem calculateSMA_replicate (w m : ℕ) (hw : 1 ≤ w) (hm : w ≤ m) (p : ℚ) :
    calculateSMA w (List.replicate m p) = some p := by
  rw [calculateSMA_of_le w hw _ (by simpa using hm)]
  have hw0 : (w : ℚ) ≠ 0 := by
    have : w ≠ 0 := by omega
    exact_mod_cast this
  have : m - (m - w) = w := by omega
  simp [List.drop_replicate, List.sum_replicate, this, hw0]

theorem scalpCycle_constant_flat (cfg : Config) (s : State) (p : ℚ) (k : ℕ)
    (hw : 1 ≤ cfg.SMA_WINDOW) (hk : k ≤ cfg.SMA_WINDOW)
    (hhist : s.priceHistory = List.replicate k p) (hflat : s.lastBuyPrice = none) :
    (scalpCycle cfg s (some p)).1.priceHistory = List.replicate (k + 1) p
    ∧ (scalpCycle cfg s (some p)).1.lastBuyPrice = none
    ∧ (scalpCycle cfg s (some p)).1.tokenBalance = s.tokenBalance := by
  have hpush : pushPrice cfg.SMA_WINDOW s.priceHistory p = List.replicate (k + 1) p := by
    rw [hhist]
    unfold pushPrice
    have : ¬ (List.replicate k p ++ [p]).length > cfg.SMA_WINDOW + 1 := by simp; omega
    simp only [this, if_false]
    rw [List.replicate_succ']
  refine ⟨by rw [scalpCycle_priceHistory, hpush], ?_⟩
  have hwaitfields : ∀ s' : State, (waitForData s').1.lastBuyPrice = s'.lastBuyPrice
      ∧ (waitForData s').1.tokenBalance = s'.tokenBalance := by
    intro s'; simp [waitForData]
  by_cases hlen : k + 1 < cfg.SMA_WINDOW
  · have hnone : calculateSMA cfg.SMA_WINDOW
        (pushPrice cfg.SMA_WINDOW s.priceHistory p) = none := by
      rw [hpush]; simp [calculateSMA, hlen]
    have hbody := tryBody_wait cfg
      { s with priceHistory := pushPrice cfg.SMA_WINDOW s.priceHistory p } p
      (by simp [hnone, truthy])
    simp only [scalpCycle, hbody]
    have := hwaitfields { s with priceHistory := pushPrice cfg.SMA_WINDOW s.priceHistory p }
    exact ⟨this.1.trans hflat, this.2⟩
  · have hsma : calculateSMA cfg.SMA_WINDOW
        (pushPrice cfg.SMA_WINDOW s.priceHistory p) = some p := by
      rw [hpush]; exact calculateSMA_replicate _ _ hw (by omega) p
    by_cases hp0 : p = 0
    · have hbody := tryBody_wait cfg
        { s with priceHistory := pushPrice cfg.SMA_WINDOW s.priceHistory p } p
        (by
          show truthy (calculateSMA cfg.SMA_WINDOW
            (pushPrice cfg.SMA_WINDOW s.priceHistory p)) = false
          rw [hsma]
          simp [truthy, hp0])
      simp only [scalpCycle, hbody]
      have := hwaitfields { s with priceHistory := pushPrice cfg.SMA_WINDOW s.priceHistory p }
      exact ⟨this.1.trans hflat, this.2⟩
    · rw [scalpCycle_flat cfg s p p (by simp [truthy, hflat]) hsma hp0]
      have hsig : buySignal
          (aboveSma (prevPrice (pushPrice cfg.SMA_WINDOW s.priceHistory p)) p)
          (aboveSma (some p) p) = false := by
        simp [buySignal, aboveSma]
      simp only [flat, hsig]
      exact ⟨hflat, rfl⟩

theorem scalp_constant_flat (cfg : Config) (p : ℚ) (n : ℕ) (hw : 1 ≤ cfg.SMA_WINDOW) :
    ∀ (s : State) (k : ℕ), k + n ≤ cfg.SMA_WINDOW + 1 →
      s.priceHistory = List.replicate k p → s.lastBuyPrice = none →
      (scalp cfg s (List.replicate n (some p))).1.priceHistory = List.replicate (k + n) p
      ∧ (scalp cfg s (List.replicate n (some p))).1.lastBuyPrice = none
      ∧ (scalp cfg s (List.replicate n (some p))).1.tokenBalance = s.tokenBalance := by
  induction n with
  | zero =>
    intro s k _ hhist hflat
    simp [scalp, hhist, hflat]
  | succ n ih =>
    intro s k hk hhist hflat
    have hstep := scalpCycle_constant_flat cfg s p k hw (by omega) hhist hflat
    have := ih (scalpCycle cfg s (some p)).1 (k + 1) (by omega) hstep.1 hstep.2.1
    simp only [List.replicate_succ, scalp]
    refine ⟨?_, this.2.1, this.2.2.trans hstep.2.2⟩
    rw [this.1]
    congr 1
    omega


/-! ## Position invariant -/

theorem fixed_buy_quantity_pos (cfg : Config) (amountIn expected : ℤ) (price : ℚ)
    (hfb : cfg.fullBalance = false) (htp : cfg.tokenPerUsdc = false)
    (hdec : cfg.tokenDecimals = 8) (hpos : 0 < price) (hle : price ≤ 10 ^ 9)
    (h : expectedOut cfg amountIn price = some expected) : 0 < minAmountOut expected := by
  have hx : (0 : ℚ) < 25 / price := by positivity
  have hraw : expectedOutRaw cfg amountIn price = some (25 / price) := by
    simp [expectedOutRaw, hfb, htp, numDiv, hpos.ne']
  simp only [expectedOut, hraw, Option.some_bind, hdec] at h
  unfold toFixed at h
  by_cases hbig : (10 : ℚ) ^ 21 ≤ |25 / price|
  · simp [hbig, parseUnits] at h
  · rw [if_neg hbig] at h
    simp only [not_lt.mpr hx.le, decide_False, parseUnits, Bool.false_eq_true, if_false,
      Option.some.injEq] at h
    have hy : (3 : ℚ) ≤ |25 / price| * 10 ^ 8 + 1 / 2 := by
      rw [abs_of_pos hx]
      have : (25 : ℚ) / 10 ^ 9 ≤ 25 / price := by
        apply div_le_div_of_nonneg_left (by norm_num) hpos hle
      have h2 : (25 : ℚ) / 10 ^ 9 * 10 ^ 8 ≤ 25 / price * 10 ^ 8 :=
        mul_le_mul_of_nonneg_right this (by positivity)
      norm_num at h2 ⊢
      linarith
    have hfl : (3 : ℤ) ≤ ⌊|25 / price| * 10 ^ 8 + 1 / 2⌋ := by
      rw [Int.le_floor]
      exact_mod_cast hy
    have hexp : (3 : ℤ) ≤ expected := by
      rw [← h]
      unfold roundHalfUp
      rw [Int.toNat_of_nonneg (by omega)]
      exact hfl
    rw [minAmountOut_of_nonneg expected (by omega)]
    omega

/-- C5, as stated, fails: in `index.js`, after sixty ticks at price 1 and one tick at price
`10^10` (all strictly positive), the last tick crosses the average upward and buys; the
expected output `25 / 10^10` rounds to zero base units, so the loop is long
(`lastBuyPrice = 10^10`) with a zero token balance. -/
theorem C5_long_with_zero_quantity :
    (∀ p, some p ∈ List.replicate 60 (some (1 : ℚ)) ++ [some (10 ^ 10)] → 0 < p)
    ∧ (scalp index State.init
        (List.replicate 60 (some 1) ++ [some (10 ^ 10)])).1.position = Position.LONG
    ∧ (scalp index State.init
        (List.replicate 60 (some 1) ++ [some (10 ^ 10)])).1.lastBuyPrice = some (10 ^ 10)
    ∧ (scalp index State.init
        (List.replicate 60 (some 1) ++ [some (10 ^ 10)])).1.tokenBalance = 0 := by
  have hwarm := scalp_constant_flat index 1 60 (by norm_num [index]) State.init 0
    (by norm_num [index]) rfl rfl
  obtain ⟨hhist, hflat, hbal⟩ := hwarm
  rw [Nat.zero_add] at hhist
  have hsize : expectedOut index AMOUNT_IN (10 ^ 10) = some 0 := by
    have := parseUnits_toFixed_eq (25 / 10 ^ 10) 8 0
      (by norm_num) (by norm_num) (by norm_num) (by norm_num)
    simpa [expectedOut, expectedOutRaw, index, numDiv] using this
  have hmin : minAmountOut 0 = 0 := by
    rw [minAmountOut_eq]; decide
  have hsma : calculateSMA index.SMA_WINDOW
      (pushPrice index.SMA_WINDOW
        (scalp index State.init (List.replicate 60 (some 1))).1.priceHistory (10 ^ 10))
      = some ((59 + 10 ^ 10) / 60) := by
    rw [hhist, show index.SMA_WINDOW = 60 from rfl,
      calculateSMA_pushed_replicate 60 (by norm_num) 1 (10 ^ 10)]
    norm_num
  have hprev : prevPrice (pushPrice index.SMA_WINDOW
      (scalp index State.init (List.replicate 60 (some 1))).1.priceHistory (10 ^ 10))
      = some 1 := by
    rw [hhist]
    exact prevPrice_pushed_replicate 60 (by norm_num) 1 (10 ^ 10)
  have hbuy := scalpCycle_buy index (scalp index State.init (List.replicate 60 (some 1))).1
    (10 ^ 10) ((59 + 10 ^ 10) / 60) AMOUNT_IN 0
    (by rw [hflat]; rfl) hsma (by norm_num)
    (by
      rw [buySignal_iff, hprev]
      refine ⟨?_, by norm_num⟩
      intro q hq
      cases hq
      norm_num)
    (fun _ => rfl) (fun h => by simp [index] at h) hsize
  have hrun : (scalp index State.init (List.replicate 60 (some 1) ++ [some (10 ^ 10)])).1
      = (scalpCycle index (scalp index State.init (List.replicate 60 (some 1))).1
          (some (10 ^ 10))).1 := scalp_snoc_state _ _ _ _
  refine ⟨?_, ?_, ?_, ?_⟩
  · intro p hp
    simp only [List.mem_append, List.mem_replicate, List.mem_singleton, Option.some.injEq] at hp
    rcases hp with ⟨_, h⟩ | h
    · rw [h]; norm_num
    · rw [h]; norm_num
  · rw [hrun]
    exact position_long_of_some _ _ hbuy.1 (by norm_num)
  · rw [hrun]; exact hbuy.1
  · rw [hrun, hbuy.2.1, hmin]

/-- C5, amended: in every state reached from the initial state by ticks whose fetched
prices are strictly positive, in any of the three scripts, the position is flat exactly when
`lastBuyPrice` is null, and a flat position holds a zero token balance.  That a zero balance
means flat, so that a long position holds a strictly positive quantity, holds under the
sizing of `index.js` (25 USDC, price in USDC per token, 8 token decimals) when moreover no
price exceeds `10^9`; there a buy with capital 25 yields a strictly positive quantity. -/
theorem C5_position_invariant (cfg : Config) (ticks : List (Option ℚ))
    (hpos : ∀ p, some p ∈ ticks → 0 < p) :
    ((scalp cfg State.init ticks).1.position = Position.FLAT
      ↔ (scalp cfg State.init ticks).1.lastBuyPrice = none)
    ∧ ((scalp cfg State.init ticks).1.position = Position.FLAT
      → (scalp cfg State.init ticks).1.tokenBalance = 0)
    ∧ (cfg.fullBalance = false → cfg.tokenPerUsdc = false → cfg.tokenDecimals = 8 →
        (∀ p, some p ∈ ticks → p ≤ 10 ^ 9) →
        ((scalp cfg State.init ticks).1.tokenBalance = 0
          ↔ (scalp cfg State.init ticks).1.position = Position.FLAT)
        ∧ ((scalp cfg State.init ticks).1.position = Position.LONG
          → 0 < (scalp cfg State.init ticks).1.tokenBalance))
    ∧ (∀ (price : ℚ) (expected : ℤ), 0 < price → price ≤ 10 ^ 9 →
        expectedOut index AMOUNT_IN price = some expected → 0 < minAmountOut expected) := by
  have hinv : (∀ e, (scalp cfg State.init ticks).1.lastBuyPrice = some e → 0 < e)
      ∧ ((scalp cfg State.init ticks).1.lastBuyPrice = none
        → (scalp cfg State.init ticks).1.tokenBalance = 0) := by
    apply scalp_invariant cfg
      (fun s => (∀ e, s.lastBuyPrice = some e → 0 < e)
        ∧ (s.lastBuyPrice = none → s.tokenBalance = 0))
    · simp [State.init]
    · intro s t ht hs
      rcases scalpCycle_cases cfg s t with h | ⟨price, _, _, hf, _, _, h1, _⟩ | h
      · rw [h.1, h.2]; exact hs
      · refine ⟨?_, ?_⟩
        · intro e he
          rw [h1] at he
          cases he
          exact hpos price (hf ▸ ht)
        · intro hn
          rw [h1] at hn
          cases hn
      · refine ⟨?_, fun _ => h.2⟩
        intro e he
        rw [h.1] at he
        cases he
  have hflat_iff : (scalp cfg State.init ticks).1.position = Position.FLAT
      ↔ (scalp cfg State.init ticks).1.lastBuyPrice = none := by
    constructor
    · intro h
      cases hl : (scalp cfg State.init ticks).1.lastBuyPrice with
      | none => rfl
      | some e =>
        have := position_long_of_some _ e hl (hinv.1 e hl).ne'
        rw [this] at h
        cases h
    · exact position_flat_of_none _
  refine ⟨hflat_iff, fun h => hinv.2 (hflat_iff.mp h), ?_, ?_⟩
  · intro hfb htp hdec hle
    have hq : ∀ e, (scalp cfg State.init ticks).1.lastBuyPrice = some e
        → 0 < (scalp cfg State.init ticks).1.tokenBalance := by
      apply scalp_invariant cfg
        (fun s => ∀ e, s.lastBuyPrice = some e → 0 < s.tokenBalance)
      · simp [State.init]
      · intro s t ht hs
        rcases scalpCycle_cases cfg s t with
          h | ⟨price, amountIn, expected, hf, _, hexp, _, h2⟩ | h
        · rw [h.1, h.2]; exact hs
        · intro _ _
          rw [h2]
          exact fixed_buy_quantity_pos cfg amountIn expected price hfb htp hdec
            (hpos price (hf ▸ ht)) (hle price (hf ▸ ht)) hexp
        · intro e he
          rw [h.1] at he
          cases he
    have hlong : (scalp cfg State.init ticks).1.position = Position.LONG
        → 0 < (scalp cfg State.init ticks).1.tokenBalance := by
      intro h
      cases hl : (scalp cfg State.init ticks).1.lastBuyPrice with
      | none =>
        rw [position_flat_of_none _ hl] at h
        cases h
      | some e => exact hq e hl
    refine ⟨⟨?_, fun h => hinv.2 (hflat_iff.mp h)⟩, hlong⟩
    intro h0
    cases hp : (scalp cfg State.init ticks).1.position with
    | FLAT => rfl
    | LONG =>
      have := hlong hp
      omega
  · intro price expected hp hle hexp
    exact fixed_buy_quantity_pos index AMOUNT_IN expected price rfl rfl rfl hp hle hexp

/-- Instance of amended C5 in `index.js` on the ticks 1 and 2. -/
theorem C5_position_invariant_witness :
    (∀ p, some p ∈ [some (1 : ℚ), some 2] → 0 < p)
    ∧ ((scalp index State.init [some 1, some 2]).1.position = Position.FLAT
      ↔ (scalp index State.init [some 1, some 2]).1.lastBuyPrice = none) := by
  have hpos : ∀ p, some p ∈ [some (1 : ℚ), some 2] → 0 < p := by
    intro p hp
    simp only [List.mem_cons, Option.some.injEq, List.mem_singleton, List.not_mem_nil,
      or_false] at hp
    rcases hp with h | h <;> rw [h] <;> norm_num
  exact ⟨hpos, (C5_position_invariant index [some 1, some 2] hpos).1⟩


/-! ## Status deduplication -/

theorem logStatus_fst (status : Status) (info : Option (NumStr × NumStr))
    (cur : Option Status) : (logStatus status info cur).1 = some status := by
  unfold logStatus
  by_cases h : some status = cur
  · simp [h.symm]
  · simp [h]

theorem logStatus_snd (status : Status) (info : Option (NumStr × NumStr))
    (cur : Option Status) :
    (logStatus status info cur).2 = if cur = some status then [] else [Effect.log status info] := by
  unfold logStatus
  by_cases h : cur = some status
  · simp [h]
  · have h' : ¬ some status = cur := fun e => h e.symm
    simp [h, h']

theorem logStatusCalls_fst (cur : Option Status)
    (calls : List (Status × Option (NumStr × NumStr))) :
    (logStatusCalls cur calls).1 = (calls.getLast?.map Prod.fst).or cur := by
  induction calls generalizing cur with
  | nil => simp [logStatusCalls]
  | cons c rest ih =>
    simp only [logStatusCalls, ih, logStatus_fst]
    cases rest with
    | nil => simp
    | cons d rest' =>
      rw [List.getLast?_cons_cons]
      cases h : (d :: rest').getLast? with
      | none => simp at h
      | some x => simp

theorem logStatusCalls_snd (a : Status × Option (NumStr × NumStr))
    (calls : List (Status × Option (NumStr × NumStr))) :
    Effect.log a.1 a.2 :: (logStatusCalls (some a.1) calls).2
      = (calls.destutter' (fun x y => x.1 ≠ y.1) a).map fun c => Effect.log c.1 c.2 := by
  induction calls generalizing a with
  | nil => simp [logStatusCalls]
  | cons c rest ih =>
    simp only [logStatusCalls, logStatus_fst, logStatus_snd]
    by_cases h : a.1 = c.1
    · rw [List.destutter'_cons_neg _ (by simpa using h), ← ih a, h]
      simp
    · rw [List.destutter'_cons_pos _ (by simpa using h), List.map_cons, ← ih c]
      have hne : ¬ (some a.1 = some c.1) := by simpa using h
      rw [if_neg hne]
      simp

/-- C19: for every sequence of calls of `logStatus` starting from `currentStatus = null`, the
next call prints exactly when its status differs from the status of the call just before it
(the first call always prints), whatever the `additionalInfo` of either call; after every
call `currentStatus` is that call's status; so the lines printed by the whole sequence are
the first call of each maximal run of equal statuses, in order. -/
theorem C19_logStatus_dedup (calls : List (Status × Option (NumStr × NumStr)))
    (status : Status) (info : Option (NumStr × NumStr)) :
    ((logStatus status info (logStatusCalls none calls).1).2
        = if calls.getLast?.map Prod.fst = some status then [] else [Effect.log status info])
    ∧ (logStatus status info (logStatusCalls none calls).1).1 = some status
    ∧ (logStatusCalls none calls).1 = calls.getLast?.map Prod.fst
    ∧ (logStatusCalls none (calls ++ [(status, info)])).1 = some status
    ∧ (logStatusCalls none calls).2
        = (calls.destutter fun x y => x.1 ≠ y.1).map fun c => Effect.log c.1 c.2 := by
  have hfst : (logStatusCalls none calls).1 = calls.getLast?.map Prod.fst := by
    rw [logStatusCalls_fst]
    cases calls.getLast?.map Prod.fst <;> rfl
  refine ⟨?_, logStatus_fst _ _ _, hfst, ?_, ?_⟩
  · rw [logStatus_snd, hfst]
  · rw [logStatusCalls_fst]
    simp
  · cases calls with
    | nil => simp [logStatusCalls]
    | cons c rest =>
      rw [List.destutter_cons', ← logStatusCalls_snd c rest]
      simp [logStatusCalls, logStatus_fst, logStatus_snd]


/-! ## Errors and the poll interval -/

theorem error_not_mem_logStatus (st : Status) (info : Option (NumStr × NumStr))
    (cur : Option Status) : Effect.error ∉ (logStatus st info cur).2 := by
  rw [logStatus_snd]
  split <;> simp

theorem sleep_not_mem_logStatus (st : Status) (info : Option (NumStr × NumStr))
    (cur : Option Status) : Effect.sleep ∉ (logStatus st info cur).2 := by
  rw [logStatus_snd]
  split <;> simp

theorem getLast?_cons_snoc (x y : Effect) (l : List Effect) :
    (x :: (l ++ [y])).getLast? = some y := by
  rw [← List.cons_append, List.getLast?_concat]

/-- How the body of `try` ends: by the sleep, no error having been raised, or by a throw,
before any sleep, before any call of `swap`, and with no variable assigned. -/
theorem tryBody_trace (cfg : Config) (s : State) (price : ℚ) :
    ((tryBody cfg s price).2.getLast? = some Effect.sleep
      ∧ Effect.error ∉ (tryBody cfg s price).2)
    ∨ ((tryBody cfg s price).2.getLast? = some Effect.error
      ∧ Effect.sleep ∉ (tryBody cfg s price).2
      ∧ (tryBody cfg s price).1 = s
      ∧ swaps (tryBody cfg s price).2 = []) := by
  have hwait : (waitForData s).2.getLast? = some Effect.sleep
      ∧ Effect.error ∉ (waitForData s).2 := by
    simp [waitForData, error_not_mem_logStatus]
  have hflat : ∀ a b : Bool,
      ((flat cfg s price a b).2.getLast? = some Effect.sleep
        ∧ Effect.error ∉ (flat cfg s price a b).2)
      ∨ ((flat cfg s price a b).2.getLast? = some Effect.error
        ∧ Effect.sleep ∉ (flat cfg s price a b).2
        ∧ (flat cfg s price a b).1 = s
        ∧ swaps (flat cfg s price a b).2 = []) := by
    intro a b
    unfold flat
    by_cases hsig : buySignal a b = true
    · rw [if_pos hsig]
      unfold buy
      by_cases hfull : cfg.fullBalance = true
      · rw [if_pos hfull]
        cases hamt : calculateTradeAmount s.simulatedUsdcBalance with
        | none => right; simp
        | some amountIn =>
          by_cases hle : formatUnits amountIn 6 ≤ 0
          · left; simp [hle]
          · cases hexp : expectedOut cfg amountIn price with
            | none => right; simp [hle, buyWith, hexp]
            | some expected =>
              left; simp [hle, buyWith, hexp, error_not_mem_logStatus, getLast?_cons_snoc]
      · rw [if_neg hfull]
        cases hexp : expectedOut cfg AMOUNT_IN price with
        | none => right; simp [buyWith, hexp]
        | some expected =>
          left; simp [buyWith, hexp, error_not_mem_logStatus, getLast?_cons_snoc]
    · rw [if_neg hsig]
      left; simp [error_not_mem_logStatus]
  unfold tryBody
  cases hsma : calculateSMA cfg.SMA_WINDOW s.priceHistory with
  | none => left; simpa using hwait
  | some sma =>
    by_cases h0 : sma = 0
    · left; simpa [h0] using hwait
    · simp only [h0, if_false]
      cases hl : s.lastBuyPrice with
      | none => simpa [hl] using hflat _ _
      | some entry =>
        by_cases he : entry = 0
        · simpa [hl, he] using hflat _ _
        · simp only [he, if_false, long]
          by_cases hex : exitCondition cfg (aboveSma (prevPrice s.priceHistory) sma)
              (aboveSma (some price) sma) (profitOf price entry) = true
          · rw [if_pos hex]
            cases hexp : expectedUsdc cfg s.tokenBalance price with
            | none => right; simp [sell, hexp]
            | some expected =>
              left; simp [sell, hexp, error_not_mem_logStatus, getLast?_cons_snoc]
          · rw [if_neg hex]
            left
            simp only [hold]
            split <;> simp [error_not_mem_logStatus]

/-- How an iteration ends, for any result of `getPrice()`. -/
theorem scalpCycle_trace (cfg : Config) (s : State) (fetched : Option ℚ) :
    ((scalpCycle cfg s fetched).2.getLast? = some Effect.sleep
      ∧ Effect.error ∉ (scalpCycle cfg s fetched).2)
    ∨ ((scalpCycle cfg s fetched).2.getLast? = some Effect.error
      ∧ Effect.sleep ∉ (scalpCycle cfg s fetched).2
      ∧ (scalpCycle cfg s fetched).1
          = { s with priceHistory := historyAfter cfg.SMA_WINDOW s.priceHistory fetched }
      ∧ swaps (scalpCycle cfg s fetched).2 = []) := by
  cases fetched with
  | none => right; simp [scalpCycle, historyAfter]
  | some price =>
    have hne : ∀ l : List Effect, l ≠ [] →
        (Effect.getPrice :: l).getLast? = l.getLast? := by
      intro l hl
      cases l with
      | nil => exact absurd rfl hl
      | cons x xs => rw [List.getLast?_cons_cons]
    rcases tryBody_trace cfg
      { s with priceHistory := pushPrice cfg.SMA_WINDOW s.priceHistory price } price
      with ⟨h1, h2⟩ | ⟨h1, h2, h3, h4⟩
    · left
      simp only [scalpCycle]
      refine ⟨?_, by simpa using h2⟩
      rw [hne _ (by intro h; rw [h] at h1; simp at h1)]
      exact h1
    · right
      simp only [scalpCycle]
      refine ⟨?_, by simpa using h2, h3, by simpa using h4⟩
      rw [hne _ (by intro h; rw [h] at h1; simp at h1)]
      exact h1


theorem getPrice_not_mem_logStatus (st : Status) (info : Option (NumStr × NumStr))
    (cur : Option Status) : Effect.getPrice ∉ (logStatus st info cur).2 := by
  rw [logStatus_snd]
  split <;> simp

theorem getPrice_not_mem_tryBody (cfg : Config) (s : State) (price : ℚ) :
    Effect.getPrice ∉ (tryBody cfg s price).2 := by
  have hwait : Effect.getPrice ∉ (waitForData s).2 := by
    simp [waitForData, getPrice_not_mem_logStatus]
  have hflat : ∀ a b : Bool, Effect.getPrice ∉ (flat cfg s price a b).2 := by
    intro a b
    unfold flat
    by_cases hsig : buySignal a b = true
    · rw [if_pos hsig]
      unfold buy
      by_cases hfull : cfg.fullBalance = true
      · rw [if_pos hfull]
        cases hamt : calculateTradeAmount s.simulatedUsdcBalance with
        | none => simp
        | some amountIn =>
          by_cases hle : formatUnits amountIn 6 ≤ 0
          · simp [hle]
          · cases hexp : expectedOut cfg amountIn price <;>
              simp [hle, buyWith, hexp, getPrice_not_mem_logStatus]
      · rw [if_neg hfull]
        cases hexp : expectedOut cfg AMOUNT_IN price <;>
          simp [buyWith, hexp, getPrice_not_mem_logStatus]
    · rw [if_neg hsig]
      simp [getPrice_not_mem_logStatus]
  unfold tryBody
  cases hsma : calculateSMA cfg.SMA_WINDOW s.priceHistory with
  | none => simpa using hwait
  | some sma =>
    by_cases h0 : sma = 0
    · simpa [h0] using hwait
    · simp only [h0, if_false]
      cases hl : s.lastBuyPrice with
      | none => simpa [hl] using hflat _ _
      | some entry =>
        by_cases he : entry = 0
        · simpa [hl, he] using hflat _ _
        · simp only [he, if_false, long]
          split
          · cases hexp : expectedUsdc cfg s.tokenBalance price <;>
              simp [sell, hexp, getPrice_not_mem_logStatus]
          · simp only [hold]
            split <;> simp [getPrice_not_mem_logStatus]

theorem fetchesSeparatedFrom_append (b : Bool) (l rest : List Effect)
    (h : Effect.getPrice ∉ l) :
    fetchesSeparatedFrom b (l ++ rest)
      = fetchesSeparatedFrom (b || decide (Effect.sleep ∈ l)) rest := by
  induction l generalizing b with
  | nil => simp
  | cons e l ih =>
    have hl : Effect.getPrice ∉ l := fun hm => h (List.mem_cons_of_mem _ hm)
    cases e with
    | getPrice => exact absurd (List.mem_cons_self _ _) h
    | sleep =>
      rw [List.cons_append]
      show fetchesSeparatedFrom true (l ++ rest) = _
      rw [ih true hl]
      simp
    | log st info =>
      rw [List.cons_append]
      show fetchesSeparatedFrom b (l ++ rest) = _
      rw [ih b hl]
      simp
    | balanceLine x =>
      rw [List.cons_append]
      show fetchesSeparatedFrom b (l ++ rest) = _
      rw [ih b hl]
      simp
    | insufficient =>
      rw [List.cons_append]
      show fetchesSeparatedFrom b (l ++ rest) = _
      rw [ih b hl]
      simp
    | swap a m x =>
      rw [List.cons_append]
      show fetchesSeparatedFrom b (l ++ rest) = _
      rw [ih b hl]
      simp
    | error =>
      rw [List.cons_append]
      show fetchesSeparatedFrom b (l ++ rest) = _
      rw [ih b hl]
      simp

/-- A run in which no iteration raises sleeps between any two fetches. -/
theorem scalp_fetchesSeparated (cfg : Config) (ticks : List (Option ℚ)) :
    ∀ s : State, Effect.error ∉ (scalp cfg s ticks).2 →
      fetchesSeparated (scalp cfg s ticks).2 = true := by
  induction ticks with
  | nil => intro s _; rfl
  | cons t ts ih =>
    intro s herr
    simp only [scalp, List.mem_append, not_or] at herr
    cases t with
    | none => simp [scalpCycle] at herr
    | some price =>
      have hbody : Effect.error ∉ (tryBody cfg
          { s with priceHistory := pushPrice cfg.SMA_WINDOW s.priceHistory price } price).2 := by
        intro hm
        exact herr.1 (List.mem_cons_of_mem _ hm)
      have hsleep : Effect.sleep ∈ (tryBody cfg
          { s with priceHistory := pushPrice cfg.SMA_WINDOW s.priceHistory price } price).2 := by
        rcases tryBody_trace cfg
          { s with priceHistory := pushPrice cfg.SMA_WINDOW s.priceHistory price } price
          with ⟨h1, _⟩ | ⟨h1, _, _, _⟩
        · exact List.mem_of_getLast?_eq_some h1
        · exact absurd (List.mem_of_getLast?_eq_some h1) hbody
      have := ih (scalpCycle cfg s (some price)).1 herr.2
      unfold fetchesSeparated at this ⊢
      simp only [scalp, scalpCycle, List.cons_append]
      show (true && fetchesSeparatedFrom false _) = true
      rw [Bool.true_and, fetchesSeparatedFrom_append _ _ _
        (getPrice_not_mem_tryBody cfg _ price)]
      simp only [hsleep, decide_True, Bool.or_true]
      exact this


theorem scalpCycle_head (cfg : Config) (s : State) (fetched : Option ℚ) :
    ∃ rest, (scalpCycle cfg s fetched).2 = Effect.getPrice :: rest := by
  cases fetched with
  | none => exact ⟨_, rfl⟩
  | some price => exact ⟨_, rfl⟩

/-- C15: an error raised during an iteration is caught and the loop goes on (a failed
`getPrice()` leaves every variable as it was and the next iteration runs), but `catch` does
not wait: the `setTimeout` is inside `try`, so an iteration that raises performs no sleep
and the next `getPrice()` follows at once.  After a failed fetch the trace of any further
iteration is `getPrice, error, getPrice, ...`: two consecutive fetches with no sleep between
them.  Only the iterations that raise nothing end with the sleep, and the runs in which no
iteration raises do sleep between any two fetches. -/
theorem C15_error_skips_the_sleep (cfg : Config) (s : State) :
    (scalp cfg s [none, none]).2
        = [Effect.getPrice, Effect.error, Effect.getPrice, Effect.error]
    ∧ fetchesSeparated (scalp cfg s [none, none]).2 = false
    ∧ (∀ (next : Option ℚ) (rest : List (Option ℚ)),
        fetchesSeparated (scalp cfg s (none :: next :: rest)).2 = false)
    ∧ (∀ rest : List (Option ℚ), (scalp cfg s (none :: rest)).1 = (scalp cfg s rest).1)
    ∧ (∀ fetched : Option ℚ, Effect.error ∈ (scalpCycle cfg s fetched).2 →
        Effect.sleep ∉ (scalpCycle cfg s fetched).2)
    ∧ (∀ fetched : Option ℚ, Effect.error ∉ (scalpCycle cfg s fetched).2 →
        (scalpCycle cfg s fetched).2.getLast? = some Effect.sleep)
    ∧ (∀ ticks : List (Option ℚ), Effect.error ∉ (scalp cfg s ticks).2 →
        fetchesSeparated (scalp cfg s ticks).2 = true) := by
  refine ⟨rfl, rfl, ?_, ?_, ?_, ?_, fun ticks => scalp_fetchesSeparated cfg ticks s⟩
  · intro next rest
    obtain ⟨tl, htl⟩ := scalpCycle_head cfg s next
    have : (scalp cfg s (none :: next :: rest)).2
        = Effect.getPrice :: Effect.error :: Effect.getPrice
          :: (tl ++ (scalp cfg (scalpCycle cfg s next).1 rest).2) := by
      simp only [scalp, scalpCycle_none, htl]
      rfl
    rw [this]
    rfl
  · intro rest
    simp only [scalp, scalpCycle_none]
  · intro fetched herr
    rcases scalpCycle_trace cfg s fetched with ⟨_, h2⟩ | ⟨_, h2, _, _⟩
    · exact absurd herr h2
    · exact h2
  · intro fetched herr
    rcases scalpCycle_trace cfg s fetched with ⟨h1, _⟩ | ⟨h1, _, _, _⟩
    · exact h1
    · have := List.mem_of_getLast?_eq_some h1
      exact absurd this herr

/-! ## All-or-nothing mutation -/

theorem error_mem_buy_of_sizing_none (cfg : Config) (s : State) (price sma : ℚ)
    (amountIn : ℤ)
    (hf : truthy s.lastBuyPrice = false)
    (hsma : calculateSMA cfg.SMA_WINDOW (pushPrice cfg.SMA_WINDOW s.priceHistory price)
      = some sma)
    (hsma0 : sma ≠ 0)
    (hsig : buySignal
      (aboveSma (prevPrice (pushPrice cfg.SMA_WINDOW s.priceHistory price)) sma)
      (aboveSma (some price) sma) = true)
    (hfixed : cfg.fullBalance = false → amountIn = AMOUNT_IN)
    (hfull : cfg.fullBalance = true →
      calculateTradeAmount s.simulatedUsdcBalance = some amountIn ∧ 0 < formatUnits amountIn 6)
    (hsize : expectedOut cfg amountIn price = none) :
    Effect.error ∈ (scalpCycle cfg s (some price)).2 := by
  rw [scalpCycle_flat cfg s price sma hf hsma hsma0]
  simp only [flat, if_pos hsig, buy]
  by_cases hfb : cfg.fullBalance = true
  · obtain ⟨hamt, hpos⟩ := hfull hfb
    simp [hfb, hamt, not_le.mpr hpos, buyWith, hsize]
  · have hfb' : cfg.fullBalance = false := by simpa using hfb
    have ha := hfixed hfb'
    subst ha
    simp [hfb', buyWith, hsize]

theorem error_mem_sell_of_sizing_none (cfg : Config) (s : State) (price sma entry : ℚ)
    (hentry : s.lastBuyPrice = some entry) (hlong : entry ≠ 0)
    (hsma : calculateSMA cfg.SMA_WINDOW (pushPrice cfg.SMA_WINDOW s.priceHistory price)
      = some sma)
    (hsma0 : sma ≠ 0)
    (hexit : exitCondition cfg
      (aboveSma (prevPrice (pushPrice cfg.SMA_WINDOW s.priceHistory price)) sma)
      (aboveSma (some price) sma) (profitOf price entry) = true)
    (hsize : expectedUsdc cfg s.tokenBalance price = none) :
    Effect.error ∈ (scalpCycle cfg s (some price)).2 := by
  rw [scalpCycle_long cfg s price sma entry hentry hlong hsma hsma0]
  simp only [long, if_pos hexit]
  have : expectedUsdc cfg
      ({ s with priceHistory := pushPrice cfg.SMA_WINDOW s.priceHistory price }).tokenBalance
      price = none := hsize
  simp [sell, this]

/-- C16: an iteration that raises an error assigns nothing but the price history.  When
`getPrice()` throws, every variable, the history included, is as before the iteration.  When
the sizing of a buy or of a sell throws (`parseUnits` on a non-decimal string), the history
holds the fetched price, as it did just before the decision, and `lastBuyPrice`, the token
balance, the position, the simulated balance and the status variables are as before; no
`swap` is called.  The dry-run `swap` of the scripts has no statement that throws. -/
theorem C16_error_leaves_state (cfg : Config) (s : State) (fetched : Option ℚ)
    (herr : Effect.error ∈ (scalpCycle cfg s fetched).2) :
    (scalpCycle cfg s fetched).1
        = { s with priceHistory := historyAfter cfg.SMA_WINDOW s.priceHistory fetched }
    ∧ (scalpCycle cfg s fetched).1.position = s.position
    ∧ (scalpCycle cfg s fetched).1.lastBuyPrice = s.lastBuyPrice
    ∧ (scalpCycle cfg s fetched).1.tokenBalance = s.tokenBalance
    ∧ (scalpCycle cfg s fetched).1.simulatedUsdcBalance = s.simulatedUsdcBalance
    ∧ swaps (scalpCycle cfg s fetched).2 = []
    ∧ (scalpCycle cfg s none).1 = s
    ∧ Effect.error ∈ (scalpCycle cfg s none).2
    ∧ (∀ (price sma : ℚ) (amountIn : ℤ),
        s.position = Position.FLAT →
        calculateSMA cfg.SMA_WINDOW (pushPrice cfg.SMA_WINDOW s.priceHistory price)
          = some sma →
        sma ≠ 0 →
        buySignal
          (aboveSma (prevPrice (pushPrice cfg.SMA_WINDOW s.priceHistory price)) sma)
          (aboveSma (some price) sma) = true →
        (cfg.fullBalance = false → amountIn = AMOUNT_IN) →
        (cfg.fullBalance = true →
          calculateTradeAmount s.simulatedUsdcBalance = some amountIn
            ∧ 0 < formatUnits amountIn 6) →
        expectedOut cfg amountIn price = none →
        Effect.error ∈ (scalpCycle cfg s (some price)).2)
    ∧ (∀ (price sma entry : ℚ),
        s.lastBuyPrice = some entry → entry ≠ 0 →
        calculateSMA cfg.SMA_WINDOW (pushPrice cfg.SMA_WINDOW s.priceHistory price)
          = some sma →
        sma ≠ 0 →
        exitCondition cfg
          (aboveSma (prevPrice (pushPrice cfg.SMA_WINDOW s.priceHistory price)) sma)
          (aboveSma (some price) sma) (profitOf price entry) = true →
        expectedUsdc cfg s.tokenBalance price = none →
        Effect.error ∈ (scalpCycle cfg s (some price)).2) := by
  have hstate : (scalpCycle cfg s fetched).1
        = { s with priceHistory := historyAfter cfg.SMA_WINDOW s.priceHistory fetched }
      ∧ swaps (scalpCycle cfg s fetched).2 = [] := by
    rcases scalpCycle_trace cfg s fetched with ⟨_, h2⟩ | ⟨_, _, h3, h4⟩
    · exact absurd herr h2
    · exact ⟨h3, h4⟩
  have hfields : (scalpCycle cfg s fetched).1.lastBuyPrice = s.lastBuyPrice
      ∧ (scalpCycle cfg s fetched).1.tokenBalance = s.tokenBalance
      ∧ (scalpCycle cfg s fetched).1.simulatedUsdcBalance = s.simulatedUsdcBalance := by
    rw [hstate.1]
    exact ⟨rfl, rfl, rfl⟩
  refine ⟨hstate.1, ?_, hfields.1, hfields.2.1, hfields.2.2, hstate.2, rfl, ?_, ?_, ?_⟩
  · unfold State.position
    rw [hfields.1]
  · simp [scalpCycle]
  · intro price sma amountIn hflat hsma hsma0 hsig hfixed hfull hsize
    exact error_mem_buy_of_sizing_none cfg s price sma amountIn
      ((position_flat_iff s).mp hflat) hsma hsma0 hsig hfixed hfull hsize
  · intro price sma entry hentry hlong hsma hsma0 hexit hsize
    exact error_mem_sell_of_sizing_none cfg s price sma entry hentry hlong hsma hsma0 hexit
      hsize


theorem parseUnits_toFixed_of_large (x : ℚ) (d : ℕ) (h : 10 ^ 21 ≤ |x|) :
    parseUnits (toFixed x d) = none := by
  unfold toFixed
  rw [if_pos h]
  rfl

/-- Instance of C16 in `index.js`: flat on sixty samples at `1e-21`, the tick at `1e-20`
crosses the average upward, `25 / 1e-20` prints as `2.5e+21`, `parseUnits` throws, and the
position is left flat with no `swap`. -/
theorem C16_error_leaves_state_witness :
    Effect.error ∈ (scalpCycle index
        { priceHistory := List.replicate 60 (1 / 10 ^ 21), currentStatus := none,
          simulatedUsdcBalance := 25, lastBuyPrice := none, tokenBalance := 0,
          lastProfitLogged := none } (some (1 / 10 ^ 20))).2
    ∧ (scalpCycle index
        { priceHistory := List.replicate 60 (1 / 10 ^ 21), currentStatus := none,
          simulatedUsdcBalance := 25, lastBuyPrice := none, tokenBalance := 0,
          lastProfitLogged := none } (some (1 / 10 ^ 20))).1.lastBuyPrice = none
    ∧ swaps (scalpCycle index
        { priceHistory := List.replicate 60 (1 / 10 ^ 21), currentStatus := none,
          simulatedUsdcBalance := 25, lastBuyPrice := none, tokenBalance := 0,
          lastProfitLogged := none } (some (1 / 10 ^ 20))).2 = [] := by
  have hsma : calculateSMA index.SMA_WINDOW
      (pushPrice index.SMA_WINDOW (List.replicate 60 (1 / 10 ^ 21)) (1 / 10 ^ 20))
      = some ((59 * (1 / 10 ^ 21) + 1 / 10 ^ 20) / 60) := by
    rw [show index.SMA_WINDOW = 60 from rfl,
      calculateSMA_pushed_replicate 60 (by norm_num) (1 / 10 ^ 21) (1 / 10 ^ 20)]
    norm_num
  have hsize : expectedOut index AMOUNT_IN (1 / 10 ^ 20) = none := by
    have := parseUnits_toFixed_of_large (25 / (1 / 10 ^ 20)) 8
      (by rw [abs_of_nonneg (by positivity)]; norm_num)
    simpa [expectedOut, expectedOutRaw, index, numDiv] using this
  have herr := error_mem_buy_of_sizing_none index
    { priceHistory := List.replicate 60 (1 / 10 ^ 21), currentStatus := none,
      simulatedUsdcBalance := 25, lastBuyPrice := none, tokenBalance := 0,
      lastProfitLogged := none } (1 / 10 ^ 20) ((59 * (1 / 10 ^ 21) + 1 / 10 ^ 20) / 60)
    AMOUNT_IN rfl hsma (by norm_num)
    (by
      rw [buySignal_iff, show index.SMA_WINDOW = 60 from rfl,
        prevPrice_pushed_replicate 60 (by norm_num)]
      refine ⟨?_, by norm_num⟩
      intro q hq
      cases hq
      norm_num)
    (fun _ => rfl) (fun h => by simp [index] at h) hsize
  have h := C16_error_leaves_state index
    { priceHistory := List.replicate 60 (1 / 10 ^ 21), currentStatus := none,
      simulatedUsdcBalance := 25, lastBuyPrice := none, tokenBalance := 0,
      lastProfitLogged := none } (some (1 / 10 ^ 20)) herr
  exact ⟨herr, h.2.2.1, h.2.2.2.2.2.1⟩


/-! ## Fixed-precision rounding and the slippage floor -/

theorem parseUnits_toFixed_of_nonneg (x : ℚ) (d : ℕ) (e : ℤ) (hx : 0 ≤ x)
    (h : parseUnits (toFixed x d) = some e) : e = ⌊x * 10 ^ d + 1 / 2⌋ ∧ x < 10 ^ 21 := by
  unfold toFixed at h
  by_cases hbig : (10 : ℚ) ^ 21 ≤ |x|
  · simp [hbig, parseUnits] at h
  · rw [if_neg hbig] at h
    simp only [not_lt.mpr hx, decide_False, parseUnits, Bool.false_eq_true, if_false,
      Option.some.injEq] at h
    rw [abs_of_nonneg hx] at hbig h
    refine ⟨?_, not_le.mp hbig⟩
    rw [← h]
    unfold roundHalfUp
    have : (0 : ℤ) ≤ ⌊x * 10 ^ d + 1 / 2⌋ := by
      rw [Int.le_floor]
      have : (0 : ℚ) ≤ x * 10 ^ d := by positivity
      push_cast
      linarith
    rw [Int.toNat_of_nonneg this]

theorem parseUnits_toFixed_some (x : ℚ) (d : ℕ) (hx : 0 ≤ x) (hlt : x < 10 ^ 21) :
    parseUnits (toFixed x d) = some ⌊x * 10 ^ d + 1 / 2⌋ := by
  obtain ⟨n, hn⟩ := parseUnits_toFixed_isSome x d (by rw [abs_of_nonneg hx]; exact hlt)
  rw [hn, (parseUnits_toFixed_of_nonneg x d n hx hn).1]

theorem minAmountOut_le_exact (x : ℚ) (d : ℕ) (e : ℤ) (hx : 0 ≤ x)
    (h : parseUnits (toFixed x d) = some e) :
    0 ≤ e ∧ minAmountOut e ≤ e ∧ ((minAmountOut e : ℤ) : ℚ) ≤ x * 10 ^ d := by
  have he := (parseUnits_toFixed_of_nonneg x d e hx h).1
  have hy : (0 : ℚ) ≤ x * 10 ^ d := by positivity
  have h0 : 0 ≤ e := by
    rw [he, Int.le_floor]
    push_cast
    linarith
  have hle : (e : ℚ) ≤ x * 10 ^ d + 1 / 2 := by
    rw [he]
    exact Int.floor_le _
  rw [minAmountOut_of_nonneg e h0]
  refine ⟨h0, by omega, ?_⟩
  by_cases hz : e = 0
  · rw [hz]
    simpa using hy
  · have h1 : e * 99 / 100 ≤ e - 1 := by omega
    have h2 : ((e * 99 / 100 : ℤ) : ℚ) ≤ ((e - 1 : ℤ) : ℚ) := by exact_mod_cast h1
    push_cast at h2
    linarith

/-- C13, as stated, fails: in `index.js` the buy at price 102 has
`expectedOutRaw = 25 / 102 = 0.2450980392...`, and `toFixed(8)` rounds it to nearest:
`expectedOut` is 24509804 base units, one above the truncation 24509803 and above the exact
value. -/
theorem C13_expectedOut_rounds_up :
    expectedOutRaw index AMOUNT_IN 102 = some (25 / 102)
    ∧ expectedOut index AMOUNT_IN 102 = some 24509804
    ∧ ⌊(25 / 102 : ℚ) * 10 ^ 8⌋ = 24509803
    ∧ (25 / 102 : ℚ) * 10 ^ 8 < ((24509804 : ℤ) : ℚ) := by
  refine ⟨by norm_num [expectedOutRaw, index, numDiv], ?_, ?_, by norm_num⟩
  · have := parseUnits_toFixed_eq (25 / 102) 8 24509804
      (by norm_num) (by norm_num) (by norm_num) (by norm_num)
    simpa [expectedOut, expectedOutRaw, index, numDiv] using this
  · rw [Int.floor_eq_iff]
    norm_num

/-- C13, amended: for every non-negative expected output value below `1e21`, the
fixed-precision `expectedOut` (buy) and `expectedUsdc` (sell) are that value rounded to the
nearest multiple of `10^-d`, the upper one on a tie: in base units `floor(x * 10^d + 1/2)`.
It is within half a base unit of the exact value, it is the truncation or the truncation
plus one, and it is the truncation exactly when the dropped fraction is below one half; so it
can exceed the exact expected output, by at most half a base unit. -/
theorem C13_expectedOut_rounds_to_nearest (raw : ℚ) (d : ℕ) (hraw : 0 ≤ raw)
    (hlt : raw < 10 ^ 21) :
    parseUnits (toFixed raw d) = some ⌊raw * 10 ^ d + 1 / 2⌋
    ∧ raw * 10 ^ d - 1 / 2 < ((⌊raw * 10 ^ d + 1 / 2⌋ : ℤ) : ℚ)
    ∧ ((⌊raw * 10 ^ d + 1 / 2⌋ : ℤ) : ℚ) ≤ raw * 10 ^ d + 1 / 2
    ∧ (⌊raw * 10 ^ d + 1 / 2⌋ = ⌊raw * 10 ^ d⌋ ∨ ⌊raw * 10 ^ d + 1 / 2⌋ = ⌊raw * 10 ^ d⌋ + 1)
    ∧ (⌊raw * 10 ^ d + 1 / 2⌋ = ⌊raw * 10 ^ d⌋ ↔ Int.fract (raw * 10 ^ d) < 1 / 2)
    ∧ (∀ (cfg : Config) (amountIn : ℤ) (price : ℚ),
        expectedOutRaw cfg amountIn price = some raw →
        expectedOut cfg amountIn price = parseUnits (toFixed raw cfg.tokenDecimals))
    ∧ (∀ (cfg : Config) (amountOut : ℤ) (price : ℚ),
        expectedUsdcRaw cfg amountOut price = some raw →
        expectedUsdc cfg amountOut price = parseUnits (toFixed raw 6)) := by
  have hfl := Int.floor_le (raw * 10 ^ d + 1 / 2)
  have hlf := Int.lt_floor_add_one (raw * 10 ^ d + 1 / 2)
  have hfl' := Int.floor_le (raw * 10 ^ d)
  have hlf' := Int.lt_floor_add_one (raw * 10 ^ d)
  have hcases : ⌊raw * 10 ^ d + 1 / 2⌋ = ⌊raw * 10 ^ d⌋
      ∨ ⌊raw * 10 ^ d + 1 / 2⌋ = ⌊raw * 10 ^ d⌋ + 1 := by
    have h1 : ⌊raw * 10 ^ d⌋ ≤ ⌊raw * 10 ^ d + 1 / 2⌋ := by
      rw [Int.le_floor]
      linarith
    have h2 : ⌊raw * 10 ^ d + 1 / 2⌋ < ⌊raw * 10 ^ d⌋ + 2 := by
      rw [Int.floor_lt]
      push_cast
      linarith
    omega
  refine ⟨parseUnits_toFixed_some raw d hraw hlt, by linarith, hfl, hcases, ?_, ?_, ?_⟩
  · constructor
    · intro h
      rw [h] at hlf
      have := Int.self_sub_floor (raw * 10 ^ d)
      rw [← this]
      linarith
    · intro h
      rw [← Int.self_sub_floor] at h
      rw [Int.floor_eq_iff]
      constructor
      · linarith
      · linarith
  · intro cfg amountIn price h
    simp [expectedOut, h]
  · intro cfg amountOut price h
    simp [expectedUsdc, h]

/-- Instance of amended C13 at the value `25 / 102` with 8 decimals. -/
theorem C13_expectedOut_rounds_to_nearest_witness :
    (0 : ℚ) ≤ 25 / 102 ∧ (25 / 102 : ℚ) < 10 ^ 21
    ∧ parseUnits (toFixed (25 / 102) 8) = some ⌊(25 / 102 : ℚ) * 10 ^ 8 + 1 / 2⌋ :=
  ⟨by norm_num, by norm_num,
    (C13_expectedOut_rounds_to_nearest (25 / 102) 8 (by norm_num) (by norm_num)).1⟩

theorem expectedOutRaw_nonneg (cfg : Config) (amountIn : ℤ) (price raw : ℚ)
    (ha : 0 ≤ amountIn) (hp : 0 < price) (h : expectedOutRaw cfg amountIn price = some raw) :
    0 ≤ raw := by
  have hn : (0 : ℚ) ≤ (if cfg.fullBalance then formatUnits amountIn 6 else 25) := by
    split
    · unfold formatUnits
      have : (0 : ℚ) ≤ (amountIn : ℚ) := by exact_mod_cast ha
      positivity
    · norm_num
  unfold expectedOutRaw at h
  by_cases ht : cfg.tokenPerUsdc = true
  · simp only [ht, if_true, Option.some.injEq] at h
    rw [← h]
    exact mul_nonneg hn hp.le
  · have ht' : cfg.tokenPerUsdc = false := by simpa using ht
    simp only [ht', numDiv, hp.ne', if_false, Bool.false_eq_true, Option.some.injEq] at h
    rw [← h]
    exact div_nonneg hn hp.le

theorem expectedUsdcRaw_nonneg (cfg : Config) (amountOut : ℤ) (price raw : ℚ)
    (ha : 0 ≤ amountOut) (hp : 0 < price) (h : expectedUsdcRaw cfg amountOut price = some raw) :
    0 ≤ raw := by
  have hn : (0 : ℚ) ≤ formatUnits amountOut cfg.tokenDecimals := by
    unfold formatUnits
    have : (0 : ℚ) ≤ (amountOut : ℚ) := by exact_mod_cast ha
    positivity
  unfold expectedUsdcRaw at h
  by_cases ht : cfg.tokenPerUsdc = true
  · simp only [ht, numDiv, hp.ne', if_true, if_false, Option.some.injEq] at h
    rw [← h]
    exact div_nonneg hn hp.le
  · have ht' : cfg.tokenPerUsdc = false := by simpa using ht
    simp only [ht', if_false, Bool.false_eq_true, Option.some.injEq] at h
    rw [← h]
    exact mul_nonneg hn hp.le


/-- C12: for every non-negative notional (`amountIn` of a buy, token balance of a sell) and
every positive price, in the three scripts, whenever the sizing produces a `minAmountOut` it
is at most the fixed-precision expected output and at most the exact unrounded expected
output (`notional * price` or `notional / price`) in output base units; the sizing does
produce one whenever the exact expected output is below `1e21`. -/
theorem C12_minAmountOut_le_expected (cfg : Config) (amountIn amountOut : ℤ) (price : ℚ)
    (hin : 0 ≤ amountIn) (hout : 0 ≤ amountOut) (hprice : 0 < price) :
    (∀ (raw : ℚ) (expected : ℤ),
        expectedOutRaw cfg amountIn price = some raw →
        expectedOut cfg amountIn price = some expected →
        minAmountOut expected ≤ expected
        ∧ ((minAmountOut expected : ℤ) : ℚ) ≤ raw * 10 ^ cfg.tokenDecimals)
    ∧ (∀ (raw : ℚ) (expected : ℤ),
        expectedUsdcRaw cfg amountOut price = some raw →
        expectedUsdc cfg amountOut price = some expected →
        minAmountOut expected ≤ expected
        ∧ ((minAmountOut expected : ℤ) : ℚ) ≤ raw * 10 ^ 6)
    ∧ expectedOutRaw cfg amountIn price
        = some (if cfg.tokenPerUsdc then
            (if cfg.fullBalance then formatUnits amountIn 6 else 25) * price
          else (if cfg.fullBalance then formatUnits amountIn 6 else 25) / price)
    ∧ expectedUsdcRaw cfg amountOut price
        = some (if cfg.tokenPerUsdc then formatUnits amountOut cfg.tokenDecimals / price
          else formatUnits amountOut cfg.tokenDecimals * price)
    ∧ (∀ raw : ℚ, expectedOutRaw cfg amountIn price = some raw → raw < 10 ^ 21 →
        ∃ expected, expectedOut cfg amountIn price = some expected)
    ∧ (∀ raw : ℚ, expectedUsdcRaw cfg amountOut price = some raw → raw < 10 ^ 21 →
        ∃ expected, expectedUsdc cfg amountOut price = some expected) := by
  refine ⟨?_, ?_, ?_, ?_, ?_, ?_⟩
  · intro raw expected hraw hexp
    have h0 := expectedOutRaw_nonneg cfg amountIn price raw hin hprice hraw
    simp only [expectedOut, hraw, Option.some_bind] at hexp
    have := minAmountOut_le_exact raw cfg.tokenDecimals expected h0 hexp
    exact ⟨this.2.1, this.2.2⟩
  · intro raw expected hraw hexp
    have h0 := expectedUsdcRaw_nonneg cfg amountOut price raw hout hprice hraw
    simp only [expectedUsdc, hraw, Option.some_bind] at hexp
    have := minAmountOut_le_exact raw 6 expected h0 hexp
    exact ⟨this.2.1, this.2.2⟩
  · unfold expectedOutRaw
    by_cases ht : cfg.tokenPerUsdc = true
    · simp [ht]
    · simp [ht, numDiv, hprice.ne']
  · unfold expectedUsdcRaw
    by_cases ht : cfg.tokenPerUsdc = true
    · simp [ht, numDiv, hprice.ne']
    · simp [ht]
  · intro raw hraw hlt
    have h0 := expectedOutRaw_nonneg cfg amountIn price raw hin hprice hraw
    refine ⟨⌊raw * 10 ^ cfg.tokenDecimals + 1 / 2⌋, ?_⟩
    simp only [expectedOut, hraw, Option.some_bind]
    exact parseUnits_toFixed_some raw _ h0 hlt
  · intro raw hraw hlt
    have h0 := expectedUsdcRaw_nonneg cfg amountOut price raw hout hprice hraw
    refine ⟨⌊raw * 10 ^ 6 + 1 / 2⌋, ?_⟩
    simp only [expectedUsdc, hraw, Option.some_bind]
    exact parseUnits_toFixed_some raw _ h0 hlt

/-- Instance of C12 in `index.js`: the buy of 25 USDC at price 102. -/
theorem C12_minAmountOut_le_expected_witness :
    (0 : ℤ) ≤ AMOUNT_IN ∧ (0 : ℚ) < 102
    ∧ minAmountOut 24509804 ≤ 24509804
    ∧ ((minAmountOut 24509804 : ℤ) : ℚ) ≤ 25 / 102 * 10 ^ index.tokenDecimals := by
  have hsize : expectedOut index AMOUNT_IN 102 = some 24509804 := by
    have := parseUnits_toFixed_eq (25 / 102) 8 24509804
      (by norm_num) (by norm_num) (by norm_num) (by norm_num)
    simpa [expectedOut, expectedOutRaw, index, numDiv] using this
  have hraw : expectedOutRaw index AMOUNT_IN 102 = some (25 / 102) := by
    norm_num [expectedOutRaw, index, numDiv]
  have h := (C12_minAmountOut_le_expected index AMOUNT_IN 0 102 (by decide) le_rfl
    (by norm_num)).1 (25 / 102) 24509804 hraw hsize
  exact ⟨by decide, by norm_num, h.1, h.2⟩


/-! ## Histories made of a constant run and a tail -/

theorem pushPrice_of_length_le (w : ℕ) (history : List ℚ) (price : ℚ)
    (h : history.length ≤ w) : pushPrice w history price = history ++ [price] := by
  unfold pushPrice
  have : ¬ (history ++ [price]).length > w + 1 := by simp; omega
  simp only [this, if_false]

theorem pushPrice_of_length_eq (w : ℕ) (x : ℚ) (history : List ℚ) (price : ℚ)
    (h : (x :: history).length = w + 1) :
    pushPrice w (x :: history) price = history ++ [price] := by
  unfold pushPrice
  have : (x :: (history ++ [price])).length > w + 1 := by
    simp only [List.length_cons, List.length_append, List.length_singleton] at h ⊢; omega
  simp only [List.cons_append, this, if_true, List.tail_cons]

theorem calculateSMA_replicate_append (w k : ℕ) (p : ℚ) (l : List ℚ) (hw : 1 ≤ w)
    (hl : l.length ≤ w) (hk : w ≤ k + l.length) :
    calculateSMA w (List.replicate k p ++ l)
      = some ((((w - l.length : ℕ) : ℚ) * p + l.sum) / (w : ℚ)) := by
  rw [calculateSMA_of_le w hw _ (by simpa using hk)]
  have hdrop : List.drop ((List.replicate k p ++ l).length - w) (List.replicate k p ++ l)
      = List.replicate (w - l.length) p ++ l := by
    have h1 : (List.replicate k p ++ l).length - w ≤ (List.replicate k p).length := by
      simp; omega
    rw [List.drop_append_of_le_length h1, List.drop_replicate]
    congr 2
    simp
    omega
  rw [hdrop]
  simp [List.sum_replicate]

theorem prevPrice_append_pair (a : List ℚ) (x y : ℚ) : prevPrice (a ++ [x, y]) = some x := by
  unfold prevPrice
  have hlen : (a ++ [x, y]).length = a.length + 2 := by simp
  rw [hlen, if_neg (by omega)]
  have : a.length + 2 - 2 = a.length := by omega
  rw [this, List.get?_eq_getElem?, List.getElem?_append_right (le_refl _)]
  simp

theorem prevPrice_replicate_append_singleton (k : ℕ) (hk : 1 ≤ k) (p q : ℚ) :
    prevPrice (List.replicate k p ++ [q]) = some p := by
  obtain ⟨j, rfl⟩ : ∃ j, k = j + 1 := ⟨k - 1, by omega⟩
  rw [List.replicate_succ', List.append_assoc]
  exact prevPrice_append_pair _ _ _

/-! ## Gate on the number of samples -/

theorem scalpCycle_wait (cfg : Config) (s : State) (price : ℚ)
    (hsma : truthy (calculateSMA cfg.SMA_WINDOW
      (pushPrice cfg.SMA_WINDOW s.priceHistory price)) = false) :
    scalpCycle cfg s (some price)
      = ({ s with
            priceHistory := pushPrice cfg.SMA_WINDOW s.priceHistory price
            currentStatus := some Status.waitingForData },
          Effect.getPrice ::
            ((if s.currentStatus = some Status.waitingForData then []
              else [Effect.log Status.waitingForData none]) ++ [Effect.sleep])) := by
  have hbody := tryBody_wait cfg
    { s with priceHistory := pushPrice cfg.SMA_WINDOW s.priceHistory price } price hsma
  simp only [scalpCycle, hbody, waitForData, logStatus_fst, logStatus_snd]

/-- C11, as stated, fails: in `index.js` (window 60), after 59 ticks at 100 the tick at 102
is decided on a history of 60 samples, fewer than `window + 1 = 61`: the average of the 60
samples is defined, the price crosses it upward, and the iteration buys. -/
theorem C11_decision_on_window_samples :
    (pushPrice index.SMA_WINDOW
        (scalp index State.init (List.replicate 59 (some 100))).1.priceHistory 102).length
      = 60
    ∧ index.SMA_WINDOW + 1 = 61
    ∧ swaps (scalpCycle index (scalp index State.init (List.replicate 59 (some 100))).1
        (some 102)).2 = [Effect.swap AMOUNT_IN (minAmountOut 24509804) true]
    ∧ (scalpCycle index (scalp index State.init (List.replicate 59 (some 100))).1
        (some 102)).1.position = Position.LONG := by
  obtain ⟨hhist, hflat, _⟩ := scalp_constant_flat index 100 59 (by norm_num [index])
    State.init 0 (by norm_num [index]) rfl rfl
  rw [Nat.zero_add] at hhist
  have hpush : pushPrice index.SMA_WINDOW
      (scalp index State.init (List.replicate 59 (some 100))).1.priceHistory 102
      = List.replicate 59 100 ++ [102] := by
    rw [hhist]
    exact pushPrice_of_length_le _ _ _ (by simp [index])
  have hsma : calculateSMA index.SMA_WINDOW
      (pushPrice index.SMA_WINDOW
        (scalp index State.init (List.replicate 59 (some 100))).1.priceHistory 102)
      = some ((59 * 100 + 102) / 60) := by
    rw [hpush, show index.SMA_WINDOW = 60 from rfl,
      calculateSMA_replicate_append 60 59 100 [102] (by norm_num) (by simp) (by simp)]
    norm_num
  have hsize : expectedOut index AMOUNT_IN 102 = some 24509804 := by
    have := parseUnits_toFixed_eq (25 / 102) 8 24509804
      (by norm_num) (by norm_num) (by norm_num) (by norm_num)
    simpa [expectedOut, expectedOutRaw, index, numDiv] using this
  have hbuy := scalpCycle_buy index (scalp index State.init (List.replicate 59 (some 100))).1
    102 ((59 * 100 + 102) / 60) AMOUNT_IN 24509804
    (by rw [hflat]; rfl) hsma (by norm_num)
    (by
      rw [buySignal_iff, hpush, prevPrice_replicate_append_singleton 59 (by norm_num)]
      refine ⟨?_, by norm_num⟩
      intro q hq
      cases hq
      norm_num)
    (fun _ => rfl) (fun h => by simp [index] at h) hsize
  refine ⟨?_, rfl, hbuy.2.2.1, position_long_of_some _ _ hbuy.1 (by norm_num)⟩
  rw [hpush]
  simp

/-- C11, amended: the loop evaluates the crossover and decides on a trade only on
iterations where the history, the fetched price included, holds at least `window` samples
(the gate is `calculateSMA` returning non-null).  On every iteration with fewer than
`window` samples it calls `logStatus('Waiting for enough data...')`, calls no `swap`, sleeps,
and leaves every variable but the history and `currentStatus` as it was; conversely an
iteration that calls `swap` has at least `window` samples. -/
theorem C11_gate_is_window (cfg : Config) (s : State) (price : ℚ)
    (hlen : (pushPrice cfg.SMA_WINDOW s.priceHistory price).length < cfg.SMA_WINDOW) :
    (scalpCycle cfg s (some price)).1
        = { s with
            priceHistory := pushPrice cfg.SMA_WINDOW s.priceHistory price
            currentStatus := some Status.waitingForData }
    ∧ (scalpCycle cfg s (some price)).2
        = Effect.getPrice ::
            ((if s.currentStatus = some Status.waitingForData then []
              else [Effect.log Status.waitingForData none]) ++ [Effect.sleep])
    ∧ swaps (scalpCycle cfg s (some price)).2 = []
    ∧ (scalpCycle cfg s (some price)).1.position = s.position
    ∧ (scalpCycle cfg s (some price)).1.lastBuyPrice = s.lastBuyPrice
    ∧ (scalpCycle cfg s (some price)).1.tokenBalance = s.tokenBalance
    ∧ (∀ (s' : State) (fetched : Option ℚ),
        swaps (scalpCycle cfg s' fetched).2 ≠ [] →
        cfg.SMA_WINDOW ≤ (historyAfter cfg.SMA_WINDOW s'.priceHistory fetched).length) := by
  have hwait : ∀ (s' : State) (price' : ℚ),
      (pushPrice cfg.SMA_WINDOW s'.priceHistory price').length < cfg.SMA_WINDOW →
      scalpCycle cfg s' (some price')
        = ({ s' with
              priceHistory := pushPrice cfg.SMA_WINDOW s'.priceHistory price'
              currentStatus := some Status.waitingForData },
            Effect.getPrice ::
              ((if s'.currentStatus = some Status.waitingForData then []
                else [Effect.log Status.waitingForData none]) ++ [Effect.sleep])) := by
    intro s' price' h
    apply scalpCycle_wait
    simp [calculateSMA, h, truthy]
  have h := hwait s price hlen
  refine ⟨by rw [h], by rw [h], ?_, by rw [h]; rfl, by rw [h], by rw [h], ?_⟩
  · rw [h]
    split <;> simp
  · intro s' fetched hsw
    by_contra hlt
    cases fetched with
    | none => simp [scalpCycle] at hsw
    | some price' =>
      have h' := hwait s' price' (not_le.mp hlt)
      rw [h'] at hsw
      apply hsw
      simp only [swaps_cons_getPrice, swaps_append]
      split <;> simp

/-- Instance of amended C11 in `index.js`: the first tick, one sample against a window of
sixty. -/
theorem C11_gate_is_window_witness :
    (pushPrice index.SMA_WINDOW State.init.priceHistory 100).length < index.SMA_WINDOW
    ∧ swaps (scalpCycle index State.init (some 100)).2 = []
    ∧ (scalpCycle index State.init (some 100)).1.currentStatus
        = some Status.waitingForData := by
  have hlen : (pushPrice index.SMA_WINDOW State.init.priceHistory 100).length
      < index.SMA_WINDOW := by
    simp [pushPrice, State.init, index]
  have h := C11_gate_is_window index State.init 100 hlen
  refine ⟨hlen, h.2.2.1, ?_⟩
  rw [h.1]


/-! ## Rejected buy -/

theorem calculateTradeAmount_of_small (balance : ℚ) (hgt : -(10 ^ 21) < balance)
    (hlt : balance < 1 / (2 * 10 ^ 6)) :
    ∃ amountIn, calculateTradeAmount balance = some amountIn ∧ amountIn ≤ 0 := by
  unfold calculateTradeAmount
  by_cases hneg : balance < 0
  · rw [toFixed_of_neg balance 6 hneg (by linarith)]
    exact ⟨_, rfl, by simp⟩
  · have h0 : 0 ≤ balance := not_lt.mp hneg
    have hr : roundHalfUp balance 6 = 0 := by
      apply roundHalfUp_eq
      · have : (0 : ℚ) ≤ balance * 10 ^ 6 := by positivity
        push_cast
        linarith
      · have : balance * 10 ^ 6 < 1 / (2 * 10 ^ 6) * 10 ^ 6 :=
          mul_lt_mul_of_pos_right hlt (by positivity)
        norm_num at this ⊢
        linarith
    rw [toFixed_of_nonneg balance 6 h0 (by linarith [show (1 : ℚ) / (2 * 10 ^ 6) < 10 ^ 21 by norm_num]), hr]
    exact ⟨_, rfl, by simp⟩

/-- C17: in the full-balance scripts, on a tick that passes the moving-average gate and
crosses the average upward while flat, when the trade amount
`parseUnits(balance.toFixed(6), 6)` is not strictly positive (any balance below half a base
unit), the iteration prints the balance and `Insufficient USDC balance to trade`, sleeps,
calls no `swap`, and leaves every variable but the history as it was: the simulated balance
is unchanged and the position stays flat with the same (null) entry price and (zero)
quantity. -/
theorem C17_nonpositive_amount_rejected (cfg : Config) (s : State)
    (price sma previousPrice : ℚ) (amountIn : ℤ)
    (hfull : cfg.fullBalance = true)
    (hflat : s.position = Position.FLAT)
    (hsma : calculateSMA cfg.SMA_WINDOW (pushPrice cfg.SMA_WINDOW s.priceHistory price)
      = some sma)
    (hsma0 : sma ≠ 0)
    (hprev : prevPrice (pushPrice cfg.SMA_WINDOW s.priceHistory price) = some previousPrice)
    (hup : previousPrice ≤ sma ∧ price > sma)
    (hamt : calculateTradeAmount s.simulatedUsdcBalance = some amountIn)
    (hle : amountIn ≤ 0) :
    (scalpCycle cfg s (some price)).2
        = [Effect.getPrice, Effect.balanceLine (toFixed s.simulatedUsdcBalance 2),
            Effect.insufficient, Effect.sleep]
    ∧ swaps (scalpCycle cfg s (some price)).2 = []
    ∧ (scalpCycle cfg s (some price)).1
        = { s with priceHistory := pushPrice cfg.SMA_WINDOW s.priceHistory price }
    ∧ (scalpCycle cfg s (some price)).1.simulatedUsdcBalance = s.simulatedUsdcBalance
    ∧ (scalpCycle cfg s (some price)).1.position = Position.FLAT
    ∧ (s.lastBuyPrice = none → (scalpCycle cfg s (some price)).1.lastBuyPrice = none)
    ∧ (s.tokenBalance = 0 → (scalpCycle cfg s (some price)).1.tokenBalance = 0)
    ∧ scalpAERO.fullBalance = true ∧ scalpCBBTC.fullBalance = true
    ∧ (∀ balance : ℚ, -(10 ^ 21) < balance → balance < 1 / (2 * 10 ^ 6) →
        ∃ a, calculateTradeAmount balance = some a ∧ a ≤ 0) := by
  have hf : truthy s.lastBuyPrice = false := (position_flat_iff s).mp hflat
  have hsig : buySignal
      (aboveSma (prevPrice (pushPrice cfg.SMA_WINDOW s.priceHistory price)) sma)
      (aboveSma (some price) sma) = true := by
    rw [buySignal_iff, hprev]
    refine ⟨?_, hup.2⟩
    intro p hp
    cases hp
    exact hup.1
  have hfmt : formatUnits amountIn 6 ≤ 0 := by
    unfold formatUnits
    have : (amountIn : ℚ) ≤ 0 := by exact_mod_cast hle
    exact div_nonpos_of_nonpos_of_nonneg this (by positivity)
  have hcycle : scalpCycle cfg s (some price)
      = ({ s with priceHistory := pushPrice cfg.SMA_WINDOW s.priceHistory price },
          [Effect.getPrice, Effect.balanceLine (toFixed s.simulatedUsdcBalance 2),
            Effect.insufficient, Effect.sleep]) := by
    rw [scalpCycle_flat cfg s price sma hf hsma hsma0]
    simp only [flat, if_pos hsig, buy, hfull, if_true, hamt, hfmt]
  refine ⟨by rw [hcycle], by rw [hcycle]; simp, by rw [hcycle], by rw [hcycle], ?_, ?_, ?_,
    rfl, rfl, calculateTradeAmount_of_small⟩
  · rw [hcycle]
    exact hflat
  · intro h
    rw [hcycle]
    exact h
  · intro h
    rw [hcycle]
    exact h

/-- Instance of C17 in `scalpCBBTC.js`: flat with a zero simulated balance on 36 samples at
100, the tick at 102 crosses the average upward and is rejected. -/
theorem C17_nonpositive_amount_rejected_witness :
    calculateTradeAmount 0 = some 0
    ∧ swaps (scalpCycle scalpCBBTC
        { priceHistory := List.replicate 36 100, currentStatus := none,
          simulatedUsdcBalance := 0, lastBuyPrice := none, tokenBalance := 0,
          lastProfitLogged := none } (some 102)).2 = []
    ∧ (scalpCycle scalpCBBTC
        { priceHistory := List.replicate 36 100, currentStatus := none,
          simulatedUsdcBalance := 0, lastBuyPrice := none, tokenBalance := 0,
          lastProfitLogged := none } (some 102)).1.lastBuyPrice = none := by
  have hamt : calculateTradeAmount 0 = some 0 := by
    have := parseUnits_toFixed_eq 0 6 0 le_rfl (by norm_num) (by norm_num) (by norm_num)
    simpa [calculateTradeAmount] using this
  have hsma : calculateSMA scalpCBBTC.SMA_WINDOW
      (pushPrice scalpCBBTC.SMA_WINDOW (List.replicate 36 100) 102)
      = some ((35 * 100 + 102) / 36) := by
    rw [show scalpCBBTC.SMA_WINDOW = 36 from rfl,
      calculateSMA_pushed_replicate 36 (by norm_num) 100 102]
    norm_num
  have h := C17_nonpositive_amount_rejected scalpCBBTC
    { priceHistory := List.replicate 36 100, currentStatus := none,
      simulatedUsdcBalance := 0, lastBuyPrice := none, tokenBalance := 0,
      lastProfitLogged := none } 102 ((35 * 100 + 102) / 36) 100 0 rfl rfl hsma (by norm_num)
    (prevPrice_pushed_replicate 36 (by norm_num) 100 102) (by norm_num) hamt le_rfl
  exact ⟨hamt, h.2.1, h.2.2.2.2.2.1 rfl⟩


/-! ## One position at a time -/

theorem alternatesFrom_swaps (b : Bool) (trace : List Effect) :
    alternatesFrom b trace = alternatesFrom b (swaps trace) := by
  induction trace generalizing b with
  | nil => rfl
  | cons e rest ih =>
    cases e with
    | swap a m isBuy =>
      rw [swaps_cons_swap]
      show (isBuy == b && alternatesFrom (!b) rest)
        = (isBuy == b && alternatesFrom (!b) (swaps rest))
      rw [ih]
    | getPrice => simp only [swaps_cons_getPrice, alternatesFrom, ih]
    | log st info => simp only [swaps_cons_log, alternatesFrom, ih]
    | balanceLine x => simp only [swaps_cons_balanceLine, alternatesFrom, ih]
    | insufficient => simp only [swaps_cons_insufficient, alternatesFrom, ih]
    | sleep => simp only [swaps_cons_sleep, alternatesFrom, ih]
    | error => simp only [swaps_cons_error, alternatesFrom, ih]

/-- The calls of `swap` of one iteration: none, with `lastBuyPrice` kept; one buy from a
falsy `lastBuyPrice`, which becomes the price; or one sell from a truthy `lastBuyPrice`,
which becomes null. -/
theorem scalpCycle_swaps_cases (cfg : Config) (s : State) (fetched : Option ℚ) :
    (swaps (scalpCycle cfg s fetched).2 = []
      ∧ (scalpCycle cfg s fetched).1.lastBuyPrice = s.lastBuyPrice)
    ∨ (∃ price amountIn minOut,
        fetched = some price
        ∧ truthy s.lastBuyPrice = false
        ∧ swaps (scalpCycle cfg s fetched).2 = [Effect.swap amountIn minOut true]
        ∧ (scalpCycle cfg s fetched).1.lastBuyPrice = some price)
    ∨ (∃ minOut,
        truthy s.lastBuyPrice = true
        ∧ swaps (scalpCycle cfg s fetched).2 = [Effect.swap s.tokenBalance minOut false]
        ∧ (scalpCycle cfg s fetched).1.lastBuyPrice = none) := by
  cases fetched with
  | none => left; exact ⟨rfl, rfl⟩
  | some price =>
    rcases tryBody_cases cfg
      { s with priceHistory := pushPrice cfg.SMA_WINDOW s.priceHistory price } price
      with h | ⟨amountIn, expected, hf, _, _, h1, _, _, hsw⟩
        | ⟨expected, ht, _, h1, _, _, _, hsw⟩
    · left
      exact ⟨by simpa [scalpCycle] using h.2.2.2, h.1⟩
    · right; left
      exact ⟨price, amountIn, minAmountOut expected, rfl, hf,
        by simpa [scalpCycle] using hsw, h1⟩
    · right; right
      refine ⟨minAmountOut expected, ht, ?_, h1⟩
      simpa [scalpCycle] using hsw

theorem scalp_alternates (cfg : Config) (ticks : List (Option ℚ)) :
    ∀ s : State, (∀ p, some p ∈ ticks → 0 < p) → (∀ e, s.lastBuyPrice = some e → 0 < e) →
      alternatesFrom (!truthy s.lastBuyPrice) (scalp cfg s ticks).2 = true := by
  induction ticks with
  | nil => intro s _ _; rfl
  | cons t ts ih =>
    intro s hpos hs
    have hpos' : ∀ p, some p ∈ ts → 0 < p := fun p hp => hpos p (List.mem_cons_of_mem _ hp)
    simp only [scalp]
    rw [alternatesFrom_swaps, swaps_append]
    rcases scalpCycle_swaps_cases cfg s t with ⟨hsw, hl⟩
      | ⟨price, amountIn, minOut, ht, hf, hsw, hl⟩ | ⟨minOut, htr, hsw, hl⟩
    · have := ih (scalpCycle cfg s t).1 hpos' (by rw [hl]; exact hs)
      rw [hl] at this
      rw [hsw, List.nil_append, ← alternatesFrom_swaps]
      exact this
    · have hp : 0 < price := hpos price (by rw [ht]; exact List.mem_cons_self _ _)
      have := ih (scalpCycle cfg s t).1 hpos' (by
        intro e he
        rw [hl] at he
        cases he
        exact hp)
      rw [hl] at this
      have htr : truthy (some price) = true := by simp [truthy, hp.ne']
      rw [htr] at this
      rw [hsw, hf, List.singleton_append]
      simp only [alternatesFrom, Bool.not_false, beq_self_eq_true, Bool.true_and,
        Bool.not_true]
      rw [← alternatesFrom_swaps]
      exact this
    · have := ih (scalpCycle cfg s t).1 hpos' (by
        intro e he
        rw [hl] at he
        cases he)
      rw [hl] at this
      rw [hsw, htr, List.singleton_append]
      simp only [alternatesFrom, Bool.not_true, beq_self_eq_true, Bool.true_and,
        Bool.not_false]
      rw [← alternatesFrom_swaps]
      exact this

/-- C18: in every run from the initial state on strictly positive prices, the calls of
`swap` alternate buy, sell, buy, ... starting with a buy; every iteration calls `swap` at
most once; a buy is only called from a flat position and a sell only from a long one; a buy
at a positive price leaves the position long and a sell leaves it flat. -/
theorem C18_swaps_alternate (cfg : Config) (ticks : List (Option ℚ))
    (hpos : ∀ p, some p ∈ ticks → 0 < p) :
    alternatesFrom true (scalp cfg State.init ticks).2 = true
    ∧ (∀ (s : State) (fetched : Option ℚ), (swaps (scalpCycle cfg s fetched).2).length ≤ 1)
    ∧ (∀ (s : State) (fetched : Option ℚ) (amountIn minOut : ℤ),
        Effect.swap amountIn minOut true ∈ (scalpCycle cfg s fetched).2 →
        s.position = Position.FLAT)
    ∧ (∀ (s : State) (fetched : Option ℚ) (amountIn minOut : ℤ),
        Effect.swap amountIn minOut false ∈ (scalpCycle cfg s fetched).2 →
        s.position = Position.LONG)
    ∧ (∀ (s : State) (price : ℚ) (amountIn minOut : ℤ), 0 < price →
        Effect.swap amountIn minOut true ∈ (scalpCycle cfg s (some price)).2 →
        (scalpCycle cfg s (some price)).1.position = Position.LONG)
    ∧ (∀ (s : State) (fetched : Option ℚ) (amountIn minOut : ℤ),
        Effect.swap amountIn minOut false ∈ (scalpCycle cfg s fetched).2 →
        (scalpCycle cfg s fetched).1.position = Position.FLAT) := by
  have hmem : ∀ (trace : List Effect) (a m : ℤ) (b : Bool),
      Effect.swap a m b ∈ trace → Effect.swap a m b ∈ swaps trace := by
    intro trace a m b h
    unfold swaps
    rw [List.mem_filter]
    exact ⟨h, rfl⟩
  refine ⟨?_, ?_, ?_, ?_, ?_, ?_⟩
  · have := scalp_alternates cfg ticks State.init hpos (by simp [State.init])
    simpa [State.init, truthy] using this
  · intro s fetched
    rcases scalpCycle_swaps_cases cfg s fetched with ⟨hsw, _⟩
      | ⟨_, _, _, _, _, hsw, _⟩ | ⟨_, _, hsw, _⟩ <;> simp [hsw]
  · intro s fetched a m h
    have h' := hmem _ _ _ _ h
    rcases scalpCycle_swaps_cases cfg s fetched with ⟨hsw, _⟩
      | ⟨_, _, _, _, hf, _, _⟩ | ⟨_, _, hsw, _⟩
    · rw [hsw] at h'; simp at h'
    · exact (position_flat_iff s).mpr hf
    · rw [hsw] at h'; simp at h'
  · intro s fetched a m h
    have h' := hmem _ _ _ _ h
    rcases scalpCycle_swaps_cases cfg s fetched with ⟨hsw, _⟩
      | ⟨_, _, _, _, _, hsw, _⟩ | ⟨_, htr, _, _⟩
    · rw [hsw] at h'; simp at h'
    · rw [hsw] at h'; simp at h'
    · unfold State.position
      rw [htr]
      rfl
  · intro s price a m hp h
    have h' := hmem _ _ _ _ h
    rcases scalpCycle_swaps_cases cfg s (some price) with ⟨hsw, _⟩
      | ⟨price', _, _, ht, _, _, hl⟩ | ⟨_, _, hsw, _⟩
    · rw [hsw] at h'; simp at h'
    · cases ht
      exact position_long_of_some _ _ hl hp.ne'
    · rw [hsw] at h'; simp at h'
  · intro s fetched a m h
    have h' := hmem _ _ _ _ h
    rcases scalpCycle_swaps_cases cfg s fetched with ⟨hsw, _⟩
      | ⟨_, _, _, _, _, hsw, _⟩ | ⟨_, _, _, hl⟩
    · rw [hsw] at h'; simp at h'
    · rw [hsw] at h'; simp at h'
    · exact position_flat_of_none _ hl


/-! ## Unrealised-profit status -/

/-- Instance of C18 in `index.js` on sixty ticks at 100 and one at 102. -/
theorem C18_swaps_alternate_witness :
    (∀ p, some p ∈ List.replicate 60 (some (100 : ℚ)) ++ [some 102] → 0 < p)
    ∧ alternatesFrom true
        (scalp index State.init (List.replicate 60 (some 100) ++ [some 102])).2 = true := by
  have hpos : ∀ p, some p ∈ List.replicate 60 (some (100 : ℚ)) ++ [some 102] → 0 < p := by
    intro p hp
    simp only [List.mem_append, List.mem_replicate, List.mem_singleton, Option.some.injEq] at hp
    rcases hp with ⟨_, h⟩ | h <;> rw [h] <;> norm_num
  exact ⟨hpos, (C18_swaps_alternate index _ hpos).1⟩


/-! ## End-to-end runs -/

theorem calculateSMA_pos (w : ℕ) (hw : 1 ≤ w) (prices : List ℚ) (sma : ℚ)
    (hpos : ∀ p ∈ prices, 0 < p) (h : calculateSMA w prices = some sma) : 0 < sma := by
  by_cases hlen : prices.length < w
  · simp [calculateSMA, hlen] at h
  · rw [calculateSMA_of_le w hw prices (not_lt.mp hlen)] at h
    cases h
    have hne : prices.drop (prices.length - w) ≠ [] := by
      intro hnil
      have := congrArg List.length hnil
      simp only [List.length_drop, List.length_nil] at this
      omega
    have hsum : 0 < (prices.drop (prices.length - w)).sum :=
      List.sum_pos _ (fun p hp => hpos p (List.mem_of_mem_drop hp)) hne
    have hwq : (0 : ℚ) < (w : ℚ) := by exact_mod_cast hw
    exact div_pos hsum hwq

theorem calculateSMA_of_lt (w : ℕ) (prices : List ℚ) (h : prices.length < w) :
    calculateSMA w prices = none := by
  simp [calculateSMA, h]

theorem calculateSMA_isSome (w : ℕ) (hw : 1 ≤ w) (prices : List ℚ) (h : w ≤ prices.length) :
    ∃ sma, calculateSMA w prices = some sma :=
  ⟨_, calculateSMA_of_le w hw prices h⟩

theorem mem_pushPrice (w : ℕ) (history : List ℚ) (price q : ℚ)
    (h : q ∈ pushPrice w history price) : q ∈ history ++ [price] := by
  unfold pushPrice at h
  by_cases hgt : (history ++ [price]).length > w + 1
  · simp only [hgt, if_true] at h
    exact List.mem_of_mem_tail h
  · simp only [hgt, if_false] at h
    exact h

theorem trading_eq_iff (s1 s2 : State) :
    s1.trading = s2.trading
      ↔ s1.priceHistory = s2.priceHistory
        ∧ s1.simulatedUsdcBalance = s2.simulatedUsdcBalance
        ∧ s1.lastBuyPrice = s2.lastBuyPrice ∧ s1.tokenBalance = s2.tokenBalance := by
  simp [State.trading, Prod.ext_iff]

theorem eq_with_memo_of_trading_eq (s1 s2 : State) (h : s1.trading = s2.trading) :
    s2 = { s1 with currentStatus := s2.currentStatus, lastProfitLogged := s2.lastProfitLogged } := by
  rw [trading_eq_iff] at h
  obtain ⟨h1, h2, h3, h4⟩ := h
  cases s1
  cases s2
  simp only at h1 h2 h3 h4
  subst h1 h2 h3 h4
  rfl

/-- Replacing the two status variables changes neither the trading variables left by the
body of `try` nor its calls of `swap`. -/
theorem tryBody_with_memo (cfg : Config) (s : State) (price : ℚ) (status : Option Status)
    (logged : Option NumStr) :
    (tryBody cfg { s with currentStatus := status, lastProfitLogged := logged } price).1.trading
        = (tryBody cfg s price).1.trading
    ∧ swaps (tryBody cfg { s with currentStatus := status, lastProfitLogged := logged }
        price).2 = swaps (tryBody cfg s price).2 := by
  have hwait : (waitForData { s with currentStatus := status, lastProfitLogged := logged }).1.trading
        = (waitForData s).1.trading
      ∧ swaps (waitForData { s with currentStatus := status, lastProfitLogged := logged }).2
        = swaps (waitForData s).2 := by
    simp [waitForData, State.trading]
  have hflat : ∀ a b : Bool,
      (flat cfg { s with currentStatus := status, lastProfitLogged := logged } price a b).1.trading
        = (flat cfg s price a b).1.trading
      ∧ swaps (flat cfg { s with currentStatus := status, lastProfitLogged := logged }
          price a b).2 = swaps (flat cfg s price a b).2 := by
    intro a b
    unfold flat
    by_cases hsig : buySignal a b = true
    · rw [if_pos hsig, if_pos hsig]
      unfold buy
      by_cases hfull : cfg.fullBalance = true
      · rw [if_pos hfull, if_pos hfull]
        cases hamt : calculateTradeAmount s.simulatedUsdcBalance with
        | none => simp [State.trading]
        | some amountIn =>
          by_cases hle : formatUnits amountIn 6 ≤ 0
          · simp [hle, State.trading]
          · cases hexp : expectedOut cfg amountIn price <;>
              simp [hle, buyWith, hexp, State.trading]
      · rw [if_neg hfull, if_neg hfull]
        cases hexp : expectedOut cfg AMOUNT_IN price <;>
          simp [buyWith, hexp, State.trading]
    · rw [if_neg hsig, if_neg hsig]
      simp [State.trading]
  unfold tryBody
  cases hsma : calculateSMA cfg.SMA_WINDOW s.priceHistory with
  | none => simpa using hwait
  | some sma =>
    by_cases h0 : sma = 0
    · simpa [h0] using hwait
    · simp only [h0, if_false]
      cases hl : s.lastBuyPrice with
      | none => simpa [hl] using hflat _ _
      | some entry =>
        by_cases he : entry = 0
        · simpa [hl, he] using hflat _ _
        · simp only [he, if_false, long]
          by_cases hex : exitCondition cfg (aboveSma (prevPrice s.priceHistory) sma)
              (aboveSma (some price) sma) (profitOf price entry) = true
          · rw [if_pos hex, if_pos hex]
            cases hexp : expectedUsdc cfg s.tokenBalance price <;>
              simp [sell, hexp, State.trading, hl]
          · rw [if_neg hex, if_neg hex]
            simp only [hold]
            split <;> split <;> simp [State.trading, hl]

theorem scalpCycle_trading (cfg : Config) (s1 s2 : State) (h : s1.trading = s2.trading)
    (fetched : Option ℚ) :
    (scalpCycle cfg s1 fetched).1.trading = (scalpCycle cfg s2 fetched).1.trading
    ∧ swaps (scalpCycle cfg s1 fetched).2 = swaps (scalpCycle cfg s2 fetched).2 := by
  cases fetched with
  | none => exact ⟨h, rfl⟩
  | some price =>
    have h2 := eq_with_memo_of_trading_eq s1 s2 h
    have := tryBody_with_memo cfg
      { s1 with priceHistory := pushPrice cfg.SMA_WINDOW s1.priceHistory price } price
      s2.currentStatus s2.lastProfitLogged
    have hs2 : ({ s2 with priceHistory := pushPrice cfg.SMA_WINDOW s2.priceHistory price } : State)
        = { s1 with priceHistory := pushPrice cfg.SMA_WINDOW s1.priceHistory price,
                    currentStatus := s2.currentStatus,
                    lastProfitLogged := s2.lastProfitLogged } := by
      rw [h2]
    simp only [scalpCycle, swaps_cons_getPrice]
    rw [hs2]
    exact ⟨this.1.symm, this.2.symm⟩

theorem scalp_trading (cfg : Config) (ticks : List (Option ℚ)) :
    ∀ s1 s2 : State, s1.trading = s2.trading →
      (scalp cfg s1 ticks).1.trading = (scalp cfg s2 ticks).1.trading
      ∧ swaps (scalp cfg s1 ticks).2 = swaps (scalp cfg s2 ticks).2 := by
  induction ticks with
  | nil => intro s1 s2 h; exact ⟨h, rfl⟩
  | cons t ts ih =>
    intro s1 s2 h
    obtain ⟨hc1, hc2⟩ := scalpCycle_trading cfg s1 s2 h t
    obtain ⟨hr1, hr2⟩ := ih _ _ hc1
    simp only [scalp, swaps_append]
    exact ⟨hr1, by rw [hc2, hr2]⟩

theorem position_eq_of_trading_eq (s1 s2 : State) (h : s1.trading = s2.trading) :
    s1.position = s2.position := by
  rw [trading_eq_iff] at h
  simp [State.position, h.2.2.1]


/-- C21: the status memo never affects trading.  Take two states that agree on the trading
variables (`priceHistory`, `simulatedUsdcBalance`, `lastBuyPrice`, token balance) and differ
arbitrarily in `currentStatus` and `lastProfitLogged`.  One iteration on the same result of
`getPrice()` leaves them agreeing on the trading variables, in the same position, and calls
`swap` with the same arguments or not at all in both; so does any run of iterations. -/
theorem C21_memo_never_affects_trading (cfg : Config) (s1 s2 : State)
    (h : s1.trading = s2.trading) :
    (∀ fetched : Option ℚ,
        (scalpCycle cfg s1 fetched).1.trading = (scalpCycle cfg s2 fetched).1.trading
        ∧ (scalpCycle cfg s1 fetched).1.position = (scalpCycle cfg s2 fetched).1.position
        ∧ swaps (scalpCycle cfg s1 fetched).2 = swaps (scalpCycle cfg s2 fetched).2)
    ∧ (∀ ticks : List (Option ℚ),
        (scalp cfg s1 ticks).1.trading = (scalp cfg s2 ticks).1.trading
        ∧ (scalp cfg s1 ticks).1.position = (scalp cfg s2 ticks).1.position
        ∧ swaps (scalp cfg s1 ticks).2 = swaps (scalp cfg s2 ticks).2) := by
  constructor
  · intro fetched
    obtain ⟨h1, h2⟩ := scalpCycle_trading cfg s1 s2 h fetched
    exact ⟨h1, position_eq_of_trading_eq _ _ h1, h2⟩
  · intro ticks
    obtain ⟨h1, h2⟩ := scalp_trading cfg ticks s1 s2 h
    exact ⟨h1, position_eq_of_trading_eq _ _ h1, h2⟩

/-- Instance of C21 in `index.js`: the initial state and the same state with a remembered
status and a remembered profit percentage, on a tick at 100. -/
theorem C21_memo_never_affects_trading_witness :
    State.init.trading
        = ({ State.init with
              currentStatus := some Status.waitingForBuySignal
              lastProfitLogged := some (NumStr.fixed false 10) } : State).trading
    ∧ (scalpCycle index State.init (some 100)).1.trading
        = (scalpCycle index
            { State.init with
              currentStatus := some Status.waitingForBuySignal
              lastProfitLogged := some (NumStr.fixed false 10) } (some 100)).1.trading
    ∧ swaps (scalpCycle index State.init (some 100)).2
        = swaps (scalpCycle index
            { State.init with
              currentStatus := some Status.waitingForBuySignal
              lastProfitLogged := some (NumStr.fixed false 10) } (some 100)).2 :=
  ⟨rfl, ((C21_memo_never_affects_trading index _ _ rfl).1 (some 100)).1,
    ((C21_memo_never_affects_trading index _ _ rfl).1 (some 100)).2.2⟩


/-! ## Positive prices -/

/-- With strictly positive fetched prices, the history holds strictly positive prices only
and an entry price, when there is one, is strictly positive. -/
theorem scalp_positive (cfg : Config) (ticks : List (Option ℚ)) (s : State)
    (hpos : ∀ p, some p ∈ ticks → 0 < p)
    (hhist : ∀ p ∈ s.priceHistory, 0 < p)
    (hentry : ∀ entry, s.lastBuyPrice = some entry → 0 < entry) :
    (∀ p ∈ (scalp cfg s ticks).1.priceHistory, 0 < p)
    ∧ (∀ entry, (scalp cfg s ticks).1.lastBuyPrice = some entry → 0 < entry) := by
  apply scalp_invariant cfg
    (fun st => (∀ p ∈ st.priceHistory, 0 < p) ∧ (∀ entry, st.lastBuyPrice = some entry → 0 < entry))
    ticks s ⟨hhist, hentry⟩
  intro st t ht hP
  obtain ⟨hP1, hP2⟩ := hP
  cases t with
  | none => exact ⟨hP1, hP2⟩
  | some price =>
    have hprice : 0 < price := hpos price ht
    constructor
    · intro p hp
      rw [scalpCycle_priceHistory] at hp
      have := mem_pushPrice _ _ _ _ hp
      rw [List.mem_append, List.mem_singleton] at this
      rcases this with h | h
      · exact hP1 p h
      · rw [h]; exact hprice
    · intro entry he
      rcases scalpCycle_cases cfg st (some price) with ⟨h1, _⟩ | ⟨q, _, _, hq, _, _, h1, _⟩ | ⟨h1, _⟩
      · rw [h1] at he
        exact hP2 entry he
      · rw [h1] at he
        cases hq
        cases he
        exact hprice
      · rw [h1] at he
        cases he

theorem truthy_eq_false_of_pos (x : Option ℚ) (h : ∀ v, x = some v → 0 < v) :
    truthy x = false ↔ x = none := by
  cases x with
  | none => simp [truthy]
  | some v =>
    have := h v rfl
    simp [truthy, this.ne']

/-- C23: if every fetched price is strictly positive, then in every state the loop reaches
from its initial state the moving average is strictly positive whenever it is defined and
the entry price is strictly positive whenever there is one; so `!sma` holds exactly when the
history has fewer than `SMA_WINDOW` samples, and `!lastBuyPrice` holds exactly when
`lastBuyPrice` is `null`, which is also exactly when the position is FLAT. -/
theorem C23_truthiness_tests_are_null_tests (cfg : Config) (ticks : List (Option ℚ))
    (hw : 0 < cfg.SMA_WINDOW) (hpos : ∀ p, some p ∈ ticks → 0 < p) :
    (∀ sma, calculateSMA cfg.SMA_WINDOW (scalp cfg State.init ticks).1.priceHistory = some sma →
        0 < sma)
    ∧ (∀ entry, (scalp cfg State.init ticks).1.lastBuyPrice = some entry → 0 < entry)
    ∧ (truthy (calculateSMA cfg.SMA_WINDOW (scalp cfg State.init ticks).1.priceHistory) = false
        ↔ (scalp cfg State.init ticks).1.priceHistory.length < cfg.SMA_WINDOW)
    ∧ (truthy (scalp cfg State.init ticks).1.lastBuyPrice = false
        ↔ (scalp cfg State.init ticks).1.lastBuyPrice = none)
    ∧ ((scalp cfg State.init ticks).1.position = Position.FLAT
        ↔ (scalp cfg State.init ticks).1.lastBuyPrice = none) := by
  obtain ⟨hhist, hentry⟩ := scalp_positive cfg ticks State.init hpos
    (by intro p hp; simp [State.init] at hp) (by intro e he; simp [State.init] at he)
  have hsma : ∀ sma,
      calculateSMA cfg.SMA_WINDOW (scalp cfg State.init ticks).1.priceHistory = some sma →
        0 < sma :=
    fun sma h => calculateSMA_pos cfg.SMA_WINDOW hw _ sma hhist h
  have hnull := truthy_eq_false_of_pos _ hentry
  refine ⟨hsma, hentry, ?_, hnull, ?_⟩
  · rw [truthy_eq_false_of_pos _ hsma]
    constructor
    · intro h
      by_contra hlen
      obtain ⟨sma, hs⟩ := calculateSMA_isSome cfg.SMA_WINDOW hw _ (not_lt.mp hlen)
      rw [h] at hs
      cases hs
    · exact calculateSMA_of_lt _ _
  · rw [position_flat_iff, hnull]

/-- Instance of C23 in `index.js`, on the ticks 100, a failed fetch, 101. -/
theorem C23_truthiness_tests_are_null_tests_witness :
    0 < index.SMA_WINDOW
    ∧ (∀ p : ℚ, some p ∈ [some (100 : ℚ), none, some 101] → 0 < p)
    ∧ (truthy (calculateSMA index.SMA_WINDOW
          (scalp index State.init [some 100, none, some 101]).1.priceHistory) = false
        ↔ (scalp index State.init [some 100, none, some 101]).1.priceHistory.length
            < index.SMA_WINDOW)
    ∧ (truthy (scalp index State.init [some 100, none, some 101]).1.lastBuyPrice = false
        ↔ (scalp index State.init [some 100, none, some 101]).1.lastBuyPrice = none) := by
  have hpos : ∀ p : ℚ, some p ∈ [some (100 : ℚ), none, some 101] → 0 < p := by
    intro p hp
    simp only [List.mem_cons, Option.some.injEq, List.mem_singleton, List.not_mem_nil,
      or_false] at hp
    rcases hp with h | h | h
    · rw [h]; norm_num
    · cases h
    · rw [h]; norm_num
  have h := C23_truthiness_tests_are_null_tests index [some 100, none, some 101]
    (by decide) hpos
  exact ⟨by decide, hpos, h.2.2.1, h.2.2.2.1⟩


/-! ## A buy and the sell that follows it -/

end ScalpingBot
